import Mathlib

/-!
Verification of the redote WebSocket client core.

The definitions below are a shallow embedding of the repository's source:
`src/websocket-client.ts` (connection manager, handshake state machine,
heartbeat scheduler, message codec), `src/message.ts` (message chain
builder/parser) and `src/crypto.ts` (`RedoteCrypto.aesEcbEncrypt`).

JavaScript strings are modelled as Lean `String`s, JS numbers occurring in
the wire envelope as `Int` (all envelope numerics are integers), `undefined`
as `Option.none`, and thrown exceptions as `Except`/explicit error results.
JSON values are modelled by the inductive `JVal` below, with a renderer
(`JSON.stringify`) and a parser (`JSON.parse`).  The renderer emits no
whitespace and the parser accepts none, and JSON numbers are restricted to
integers without exponent forms; neither restriction is observable on any
frame the client itself produces.
-/

namespace Redote


/-- A JSON value: the codomain of `JSON.parse` / domain of `JSON.stringify`
as used by the client.  Object member order is the JS insertion order. -/
inductive JVal where
  | jnull : JVal
  | jbool (b : Bool) : JVal
  | jint (n : Int) : JVal
  | jstr (s : String) : JVal
  | jarr (items : List JVal) : JVal
  | jobj (fields : List (String × JVal)) : JVal

/-! ### Digits and hexadecimal helpers -/

/-- The decimal digit character for `d < 10`. -/
def digCh (d : Nat) : Char := Char.ofNat (48 + d)

/-- Numeric value of a decimal digit character. -/
def chDig (c : Char) : Nat := c.toNat - 48

/-- Is `c` one of `0`..`9`? -/
def isDig (c : Char) : Bool := 47 < c.toNat && c.toNat < 58

/-- Lower-case hexadecimal digit character for `d < 16`. -/
def hexCh (d : Nat) : Char :=
  if d < 10 then Char.ofNat (48 + d) else Char.ofNat (87 + d)

/-- Value of a hexadecimal digit character (upper or lower case). -/
def hexVal (c : Char) : Option Nat :=
  if 47 < c.toNat && c.toNat < 58 then some (c.toNat - 48)
  else if 96 < c.toNat && c.toNat < 103 then some (c.toNat - 87)
  else if 64 < c.toNat && c.toNat < 71 then some (c.toNat - 55)
  else none

/-- Decimal digit characters of `n`, most significant first; `fuel`-driven so
that the definition is structural (any `fuel ≥ n` gives the same answer). -/
def natCsAux : Nat → Nat → List Char
  | 0, _ => []
  | fuel + 1, n =>
    if n < 10 then [digCh n] else natCsAux fuel (n / 10) ++ [digCh (n % 10)]

/-- Decimal digit characters of `n`, most significant first. -/
def natCs (n : Nat) : List Char := natCsAux (n + 1) n

/-- Character rendering of an integer: optional minus sign, then digits.
Matches JS number printing for every integer of magnitude below `2^53`. -/
def intCs (i : Int) : List Char :=
  if i < 0 then '-' :: natCs i.natAbs else natCs i.natAbs

/-- Accumulate a run of decimal digits (the longest digit prefix). -/
def grabDigs (acc : Nat) : List Char → Nat × List Char
  | [] => (acc, [])
  | c :: cs => if isDig c then grabDigs (acc * 10 + chDig c) cs else (acc, c :: cs)

/-- Parse an integer: optional minus sign followed by at least one digit. -/
def pInt : List Char → Option (Int × List Char)
  | [] => none
  | c :: cs =>
    if c = '-' then
      match cs with
      | [] => none
      | d :: cs' =>
        if isDig d then
          let p := grabDigs (chDig d) cs'
          some (-(p.1 : Int), p.2)
        else none
    else if isDig c then
      let p := grabDigs (chDig c) cs
      some ((p.1 : Int), p.2)
    else none

/-! ### String escaping (`JSON.stringify` side) and unescaping -/

/-- JSON escape of one character, as `JSON.stringify` produces it: `"` and
`\` get two-character escapes, the five named control characters get their
short escapes, the remaining control characters get `\u00XX`, and every
other character is emitted verbatim. -/
def escCh (c : Char) : List Char :=
  if c = '"' then ['\\', '"']
  else if c = '\\' then ['\\', '\\']
  else if c.toNat ≥ 32 then [c]
  else if c.toNat = 8 then ['\\', 'b']
  else if c.toNat = 9 then ['\\', 't']
  else if c.toNat = 10 then ['\\', 'n']
  else if c.toNat = 12 then ['\\', 'f']
  else if c.toNat = 13 then ['\\', 'r']
  else ['\\', 'u', '0', '0', hexCh (c.toNat / 16), hexCh (c.toNat % 16)]

/-- The two-character escapes accepted after a backslash. -/
def unesc (e : Char) : Option Char :=
  if e = '"' then some '"'
  else if e = '\\' then some '\\'
  else if e = '/' then some '/'
  else if e = 'b' then some (Char.ofNat 8)
  else if e = 't' then some (Char.ofNat 9)
  else if e = 'n' then some (Char.ofNat 10)
  else if e = 'f' then some (Char.ofNat 12)
  else if e = 'r' then some (Char.ofNat 13)
  else none

/-- Parse the body of a JSON string (after the opening quote) up to the
closing quote, undoing escapes.  `\uXXXX` escapes are accepted whenever the
code is a valid scalar value. -/
def pStrCs : List Char → Option (List Char × List Char)
  | [] => none
  | '"' :: r => some ([], r)
  | '\\' :: 'u' :: h1 :: h2 :: h3 :: h4 :: r =>
    (match hexVal h1, hexVal h2, hexVal h3, hexVal h4 with
     | some a, some b, some x, some y =>
        let n := ((a * 16 + b) * 16 + x) * 16 + y
        if n < 55296 then (pStrCs r).map (fun p => (Char.ofNat n :: p.1, p.2))
        else none
     | _, _, _, _ => none)
  | '\\' :: e :: r =>
    (match unesc e with
     | some d => (pStrCs r).map (fun p => (d :: p.1, p.2))
     | none => none)
  | c :: r => (pStrCs r).map (fun p => (c :: p.1, p.2))

/-! ### Rendering (`JSON.stringify`) -/

/-- Render a string with surrounding quotes and escapes. -/
def rStr (s : String) : List Char :=
  '"' :: (s.data.flatMap escCh ++ ['"'])

mutual

/-- Render a JSON value to characters, exactly as `JSON.stringify` does
(no whitespace, object members in insertion order). -/
def rVal : JVal → List Char
  | .jnull => ['n', 'u', 'l', 'l']
  | .jbool true => ['t', 'r', 'u', 'e']
  | .jbool false => ['f', 'a', 'l', 's', 'e']
  | .jint n => intCs n
  | .jstr s => rStr s
  | .jarr [] => ['[', ']']
  | .jarr (x :: xs) => '[' :: (rVal x ++ rTail xs)
  | .jobj [] => ['\x7b', '\x7d']
  | .jobj (f :: fs) => '\x7b' :: (rFld f ++ rFTail fs)

/-- Remaining array items, each preceded by a comma, then the close bracket. -/
def rTail : List JVal → List Char
  | [] => [']']
  | x :: xs => ',' :: (rVal x ++ rTail xs)

/-- One object member: quoted key, colon, value. -/
def rFld : String × JVal → List Char
  | (k, v) => rStr k ++ ':' :: rVal v

/-- Remaining object members, each preceded by a comma, then the close brace. -/
def rFTail : List (String × JVal) → List Char
  | [] => ['\x7d']
  | f :: fs => ',' :: (rFld f ++ rFTail fs)

end


/-! ### Parsing (`JSON.parse`) -/

mutual

/-- Parse one JSON value.  Structural recursion on `fuel`; a fuel of at
least the value's `jsize` suffices (proved below). -/
def pVal : Nat → List Char → Option (JVal × List Char)
  | 0, _ => none
  | _ + 1, [] => none
  | fuel + 1, c :: cs =>
    if c = 'n' then
      match cs with
      | 'u' :: 'l' :: 'l' :: r => some (.jnull, r)
      | _ => none
    else if c = 't' then
      match cs with
      | 'r' :: 'u' :: 'e' :: r => some (.jbool true, r)
      | _ => none
    else if c = 'f' then
      match cs with
      | 'a' :: 'l' :: 's' :: 'e' :: r => some (.jbool false, r)
      | _ => none
    else if c = '"' then
      (pStrCs cs).map (fun p => (.jstr (String.mk p.1), p.2))
    else if c = '[' then
      match cs with
      | ']' :: r => some (.jarr [], r)
      | _ =>
        match pVal fuel cs with
        | none => none
        | some (v, r1) =>
          match pItems fuel r1 with
          | none => none
          | some (vs, r2) => some (.jarr (v :: vs), r2)
    else if c = '\x7b' then
      match cs with
      | '\x7d' :: r => some (.jobj [], r)
      | '"' :: r =>
        match pStrCs r with
        | none => none
        | some (k, r1) =>
          match r1 with
          | ':' :: r2 =>
            match pVal fuel r2 with
            | none => none
            | some (v, r3) =>
              match pFields fuel r3 with
              | none => none
              | some (fs, r4) => some (.jobj ((String.mk k, v) :: fs), r4)
          | _ => none
      | _ => none
    else
      (pInt (c :: cs)).map (fun p => (.jint p.1, p.2))

/-- Parse `(',' value)* ']'` after the first array item. -/
def pItems : Nat → List Char → Option (List JVal × List Char)
  | 0, _ => none
  | _ + 1, ']' :: r => some ([], r)
  | fuel + 1, ',' :: r =>
    match pVal fuel r with
    | none => none
    | some (v, r1) =>
      match pItems fuel r1 with
      | none => none
      | some (vs, r2) => some (v :: vs, r2)
  | _ + 1, _ => none

/-- Parse `(',' member)* '\x7d'` after the first object member. -/
def pFields : Nat → List Char → Option (List (String × JVal) × List Char)
  | 0, _ => none
  | _ + 1, '\x7d' :: r => some ([], r)
  | fuel + 1, ',' :: '"' :: r =>
    match pStrCs r with
    | none => none
    | some (k, r1) =>
      match r1 with
      | ':' :: r2 =>
        match pVal fuel r2 with
        | none => none
        | some (v, r3) =>
          match pFields fuel r3 with
          | none => none
          | some (fs, r4) => some ((String.mk k, v) :: fs, r4)
      | _ => none
  | _ + 1, _ => none

end


/-- `JSON.parse`: parse a complete document, requiring full consumption. -/
def jparse (s : String) : Option JVal :=
  match pVal (s.data.length + 1) s.data with
  | some (v, []) => some v
  | _ => none

/-- `JSON.stringify` on a `JVal`. -/
def jrender (j : JVal) : String := String.mk (rVal j)



/-! ### Size measure: enough fuel for the parser -/

mutual

/-- Number of parsing steps a value needs (one per node and list cell). -/
def jsize : JVal → Nat
  | .jnull => 1
  | .jbool _ => 1
  | .jint _ => 1
  | .jstr _ => 1
  | .jarr xs => 1 + jsizeL xs
  | .jobj fs => 1 + jsizeF fs

/-- Step count of an array tail. -/
def jsizeL : List JVal → Nat
  | [] => 0
  | x :: xs => 1 + jsize x + jsizeL xs

/-- Step count of an object member tail. -/
def jsizeF : List (String × JVal) → Nat
  | [] => 0
  | f :: fs => 1 + jsize f.2 + jsizeF fs

end

/-- Digit-run value, most significant first, on top of `a`. -/
def foldDigs (a : Nat) (ds : List Char) : Nat :=
  ds.foldl (fun x c => x * 10 + chDig c) a

/-- The continuation cannot extend a digit run: empty or headed by a non-digit. -/
def noDigHead : List Char → Prop
  | [] => True
  | c :: _ => isDig c = false



/-! ### The flat wire envelope (`WebSocketMessage`, types.ts lines 42–54)

A `Partial<WebSocketMessage>` and a complete envelope share one shape: every
field is optional (`none` models a JS `undefined`/absent field; the `send`
path checks at run time that `type` is numeric).  The opaque `data` field is
an arbitrary JSON value. -/
structure WSMessage where
  type : Option Int := none
  seq : Option Int := none
  ack : Option Int := none
  token : Option String := none
  appId : Option String := none
  topic : Option String := none
  encrypt : Option Bool := none
  secureKey : Option String := none
  data : Option JVal := none

/-- A present field contributes one member; an absent one contributes none
(`JSON.stringify` drops `undefined`-valued members). -/
def optField (k : String) (v : Option JVal) : List (String × JVal) :=
  match v with
  | some j => [(k, j)]
  | none => []

/-- The JSON object a wire envelope serializes to.  Member order is fixed
here; inbound field extraction is order-insensitive, like JS property
access. -/
def msgJson (m : WSMessage) : JVal :=
  .jobj (optField "type" (m.type.map .jint) ++ optField "seq" (m.seq.map .jint) ++
    optField "ack" (m.ack.map .jint) ++ optField "token" (m.token.map .jstr) ++
    optField "appId" (m.appId.map .jstr) ++ optField "topic" (m.topic.map .jstr) ++
    optField "encrypt" (m.encrypt.map .jbool) ++
    optField "secureKey" (m.secureKey.map .jstr) ++ optField "data" m.data)

/-- JS object member access: the last member with the key wins (as in
`JSON.parse`); `none` is `undefined`. -/
def jLookup : List (String × JVal) → String → Option JVal
  | [], _ => none
  | (k', v) :: fs, k =>
    match jLookup fs k with
    | some r => some r
    | none => if k' = k then some v else none

/-- Read a JSON value as a number, as the typed field extraction does. -/
def asInt : JVal → Option Int
  | .jint n => some n
  | _ => none

/-- Read a JSON value as a string. -/
def asStr : JVal → Option String
  | .jstr s => some s
  | _ => none

/-- Read a JSON value as a boolean. -/
def asBool : JVal → Option Bool
  | .jbool b => some b
  | _ => none

/-- Project a parsed JSON value onto the envelope shape (the inbound
`JSON.parse(...) as WebSocketMessage` cast followed by field access; a
non-object yields an envelope with every field `undefined`). -/
def envFromJson (j : JVal) : WSMessage :=
  match j with
  | .jobj fs =>
    { type := (jLookup fs "type").bind asInt
      seq := (jLookup fs "seq").bind asInt
      ack := (jLookup fs "ack").bind asInt
      token := (jLookup fs "token").bind asStr
      appId := (jLookup fs "appId").bind asStr
      topic := (jLookup fs "topic").bind asStr
      encrypt := (jLookup fs "encrypt").bind asBool
      secureKey := (jLookup fs "secureKey").bind asStr
      data := jLookup fs "data" }
  | _ => {}

/-- The inbound decode path (`setupEventHandlers`, websocket-client.ts lines
86–94): `JSON.parse` the frame into the envelope shape; `none` models the
parse failure that is logged and dropped. -/
def decodeMsg (s : String) : Option WSMessage := (jparse s).map envFromJson

/-- Serialize an envelope (`JSON.stringify(message)`). -/
def encodeWire (m : WSMessage) : String := jrender (msgJson m)

/-- The outbound encode path (`send`, websocket-client.ts lines 120–137):
copy the partial envelope, overwrite `seq` with the freshly incremented
sequence counter (`seq: ++this.seq`), and stringify. -/
def sendEncode (seqCtr : Nat) (d : WSMessage) : String :=
  encodeWire { d with seq := some ((seqCtr + 1 : Nat) : Int) }



/-! ### `RedoteCrypto.aesEcbEncrypt` (crypto.ts lines 4–30)

`Buffer.from(key, 'utf8')`, zero-filled adjustment to 16/24/32 bytes,
`aes-128-ecb` over the first 16 key bytes with PKCS#7 padding, base64
output with `+`→`-`, `/`→`_` and `=` stripped.  The AES-128 block cipher is
embedded from FIPS 197 (S-box computed as the affine transform of the
GF(2^8) inverse) and validated against the FIPS 197 appendix C.1 vector
below.  Bytes are `Nat`s below 256. -/

/-- UTF-8 bytes of one scalar value. -/
def utf8Ch (c : Char) : List Nat :=
  let n := c.toNat
  if n < 128 then [n]
  else if n < 2048 then [192 + n / 64, 128 + n % 64]
  else if n < 65536 then [224 + n / 4096, 128 + n / 64 % 64, 128 + n % 64]
  else [240 + n / 262144, 128 + n / 4096 % 64, 128 + n / 64 % 64, 128 + n % 64]

/-- UTF-8 encoding of a string (`Buffer.from(s, 'utf8')`). -/
def utf8 (s : String) : List Nat := s.data.flatMap utf8Ch

/-- `Buffer.alloc(len)` followed by `src.copy(target)`: the source is
truncated at the target length, the remainder is zero-filled. -/
def bufCopy (len : Nat) (src : List Nat) : List Nat :=
  src.take len ++ List.replicate (len - src.length) 0

/-- The key adjustment of `aesEcbEncrypt`: pad or truncate the key bytes to
16, 24 or 32 bytes by length class. -/
def adjustKey (kb : List Nat) : List Nat :=
  if kb.length ≤ 16 then bufCopy 16 kb
  else if kb.length ≤ 24 then bufCopy 24 kb
  else bufCopy 32 kb

/-- PKCS#7 padding to 16-byte blocks (`cipher.setAutoPadding(true)`). -/
def pkcs7 (bs : List Nat) : List Nat :=
  bs ++ List.replicate (16 - bs.length % 16) (16 - bs.length % 16)

/-- GF(2^8) `xtime`: multiply by `x` modulo the AES polynomial. -/
def xtime (b : Nat) : Nat :=
  if b < 128 then b * 2 else (b * 2) % 256 ^^^ 27

/-- GF(2^8) shift-and-add multiplication over the 8 bits of `b`. -/
def gfMulAux : Nat → Nat → Nat → Nat
  | 0, _, _ => 0
  | fuel + 1, a, b =>
    if b = 0 then 0
    else (if b % 2 = 1 then a else 0) ^^^ gfMulAux fuel (xtime a) (b / 2)

/-- GF(2^8) multiplication. -/
def gfMul (a b : Nat) : Nat := gfMulAux 8 a b

/-- Multiplicative inverse in GF(2^8) (`0` maps to `0`): `a^254`, computed
by the square chain `254 = 2 + 4 + 8 + 16 + 32 + 64 + 128`. -/
def gfInv (a : Nat) : Nat :=
  let a2 := gfMul a a
  let a4 := gfMul a2 a2
  let a8 := gfMul a4 a4
  let a16 := gfMul a8 a8
  let a32 := gfMul a16 a16
  let a64 := gfMul a32 a32
  let a128 := gfMul a64 a64
  gfMul a128 (gfMul a64 (gfMul a32 (gfMul a16 (gfMul a8 (gfMul a4 a2)))))

/-- Rotate the low 8 bits left by one. -/
def rotl8 (b : Nat) : Nat := (b * 2) % 256 + b / 128

/-- The AES S-box: affine transform of the field inverse (FIPS 197 §5.1.1). -/
def sbox (b : Nat) : Nat :=
  let x := gfInv b
  x ^^^ rotl8 x ^^^ rotl8 (rotl8 x) ^^^ rotl8 (rotl8 (rotl8 x)) ^^^
    rotl8 (rotl8 (rotl8 (rotl8 x))) ^^^ 99

/-- One 4-byte word of the key schedule, substituted. -/
def subWord (w : List Nat) : List Nat := w.map sbox

/-- Rotate a 4-byte word left by one byte. -/
def rotWord : List Nat → List Nat
  | a :: rest => rest ++ [a]
  | [] => []

/-- Round constants for AES-128 key expansion. -/
def rcon : Nat → Nat
  | 1 => 1
  | 2 => 2
  | 3 => 4
  | 4 => 8
  | 5 => 16
  | 6 => 32
  | 7 => 64
  | 8 => 128
  | 9 => 27
  | 10 => 54
  | _ => 0

/-- XOR two byte lists pointwise. -/
def xorBytes (a b : List Nat) : List Nat := List.zipWith (· ^^^ ·) a b

/-- Key-schedule words `w[0]..w[n+3]` (FIPS 197 §5.2), oldest first. -/
def expandWords (k : List Nat) : Nat → List (List Nat)
  | 0 => [k.take 4, (k.drop 4).take 4, (k.drop 8).take 4, (k.drop 12).take 4]
  | n + 1 =>
    let ws := expandWords k n
    let i := n + 4
    let prev := ws.getD (i - 1) []
    let back4 := ws.getD (i - 4) []
    ws ++ [if i % 4 = 0 then
             xorBytes back4 (xorBytes (subWord (rotWord prev)) [rcon (i / 4), 0, 0, 0])
           else xorBytes back4 prev]

/-- `w[i]` of the AES-128 key schedule. -/
def keyWords (k : List Nat) (i : Nat) : List Nat := (expandWords k 40).getD i []

/-- The 16-byte round key for round `r` (words `4r..4r+3` concatenated). -/
def roundKey (k : List Nat) (r : Nat) : List Nat :=
  keyWords k (4 * r) ++ keyWords k (4 * r + 1) ++ keyWords k (4 * r + 2) ++
    keyWords k (4 * r + 3)

/-- SubBytes on the flat 16-byte state. -/
def subBytes (st : List Nat) : List Nat := st.map sbox

/-- ShiftRows as a flat-index permutation (state is column-major). -/
def shiftRows (st : List Nat) : List Nat :=
  [0, 5, 10, 15, 4, 9, 14, 3, 8, 13, 2, 7, 12, 1, 6, 11].map (fun i => st.getD i 0)

/-- MixColumns on one 4-byte column. -/
def mixCol : List Nat → List Nat
  | [a0, a1, a2, a3] =>
    [gfMul 2 a0 ^^^ gfMul 3 a1 ^^^ a2 ^^^ a3,
     a0 ^^^ gfMul 2 a1 ^^^ gfMul 3 a2 ^^^ a3,
     a0 ^^^ a1 ^^^ gfMul 2 a2 ^^^ gfMul 3 a3,
     gfMul 3 a0 ^^^ a1 ^^^ a2 ^^^ gfMul 2 a3]
  | l => l

/-- MixColumns on the flat 16-byte state. -/
def mixColumns (st : List Nat) : List Nat :=
  mixCol (st.take 4) ++ mixCol ((st.drop 4).take 4) ++ mixCol ((st.drop 8).take 4) ++
    mixCol ((st.drop 12).take 4)

/-- The main rounds `1..9` applied in order. -/
def aesRounds (k : List Nat) : Nat → List Nat → List Nat
  | 0, st => st
  | r + 1, st =>
    xorBytes (mixColumns (shiftRows (subBytes (aesRounds k r st)))) (roundKey k (r + 1))

/-- AES-128 encryption of one 16-byte block (FIPS 197 §5.1). -/
def aesBlock (k : List Nat) (blk : List Nat) : List Nat :=
  let st0 := xorBytes blk (roundKey k 0)
  let st9 := aesRounds k 9 st0
  xorBytes (shiftRows (subBytes st9)) (roundKey k 10)



/-- One base64 alphabet character. -/
def b64Char (n : Nat) : Char :=
  if n < 26 then Char.ofNat (65 + n)
  else if n < 52 then Char.ofNat (97 + (n - 26))
  else if n < 62 then Char.ofNat (48 + (n - 52))
  else if n = 62 then '+'
  else '/'

/-- Standard base64 of a byte list, with `=` padding. -/
def b64Cs : List Nat → List Char
  | [] => []
  | [b0] =>
    let n := b0 * 65536
    [b64Char (n / 262144), b64Char (n / 4096 % 64), '=', '=']
  | [b0, b1] =>
    let n := b0 * 65536 + b1 * 256
    [b64Char (n / 262144), b64Char (n / 4096 % 64), b64Char (n / 64 % 64), '=']
  | b0 :: b1 :: b2 :: rest =>
    let n := b0 * 65536 + b1 * 256 + b2
    b64Char (n / 262144) :: b64Char (n / 4096 % 64) :: b64Char (n / 64 % 64) ::
      b64Char (n % 64) :: b64Cs rest

/-- Split into 16-byte blocks (`fuel`-driven for structural recursion). -/
def chunks16Aux : Nat → List Nat → List (List Nat)
  | 0, _ => []
  | _ + 1, [] => []
  | fuel + 1, b :: rest => ((b :: rest).take 16) :: chunks16Aux fuel ((b :: rest).drop 16)

/-- Split a byte list into 16-byte blocks. -/
def chunks16 (l : List Nat) : List (List Nat) := chunks16Aux l.length l

/-- The `+`→`-`, `/`→`_`, `=`-stripping post-processing of the base64
output (the three `.replace` calls). -/
def urlSafe (cs : List Char) : List Char :=
  (cs.map (fun c => if c = '+' then '-' else if c = '/' then '_' else c)).filter (· ≠ '=')

/-- `RedoteCrypto.aesEcbEncrypt(key, plaintext)`: utf-8 both inputs, adjust
the key, AES-128-ECB each padded block with the first 16 key bytes, base64
the ciphertext, and make it URL-safe without padding. -/
def aesEcbEncrypt (key plaintext : String) : String :=
  let kb := utf8 key
  let k16 := (adjustKey kb).take 16
  let blocks := chunks16 (pkcs7 (utf8 plaintext))
  let ct := blocks.flatMap (aesBlock k16)
  String.mk (urlSafe (b64Cs ct))



/-! ### Message segments and chains (types.ts lines 128–227, message.ts)

The TS segment union is a tagged variant `{type, data}`; each constructor
below carries that variant's `data` fields (`Option` for the optional
ones).  `unknownSeg` models a runtime segment whose tag is outside the
declared union (the `default` arm of `chainToText`).  Field values of the
wrong dynamic type (possible only for ill-typed server payloads) are
outside this typed model and read as absent.  `at` is a Lean keyword, so
that constructor is named `atSeg`. -/
inductive MessageSegment where
  | text (text : String)
  | image (file url : Option String) (width height : Option Int)
  | video (file url : Option String) (duration : Option Int)
  | voice (file url : Option String) (duration : Option Int)
  | card (content : String) (cardType : Option String)
  | note (noteId : String) (title content url : Option String)
  | emoticon (id : String) (name url : Option String)
  | atSeg (userId : String) (name : Option String)
  | unknownSeg (tag : String)

/-- An ordered message chain. -/
def MessageChain := List MessageSegment

/-- `MessageBuilder.text`. -/
def mbText (t : String) : MessageSegment := .text t

/-- `MessageBuilder.emoticon`. -/
def mbEmoticon (id : String) (name url : Option String) : MessageSegment :=
  .emoticon id name url

/-- `MessageBuilder.at`. -/
def mbAt (userId : String) (name : Option String) : MessageSegment := .atSeg userId name

/-- `MessageBuilder.fromString`: one text segment. -/
def fromString (t : String) : MessageChain := [mbText t]

/-- JS property access `v[k]` on a parsed JSON value: reading a property of
`null` throws (`error`), a missing property or a primitive receiver gives
`undefined` (`none`). -/
def jsGet (v : JVal) (k : String) : Except Unit (Option JVal) :=
  match v with
  | .jnull => .error ()
  | .jobj fs => .ok (jLookup fs k)
  | _ => .ok none

/-- JS optional chaining `v?.[k]`: `undefined`/`null` receivers give
`undefined` instead of throwing. -/
def jsOpt (v : Option JVal) (k : String) : Except Unit (Option JVal) :=
  match v with
  | none => .ok none
  | some .jnull => .ok none
  | some w => jsGet w k

/-- JS truthiness of a field value. -/
def jsTruthy : Option JVal → Bool
  | none => false
  | some .jnull => false
  | some (.jbool b) => b
  | some (.jint n) => n != 0
  | some (.jstr s) => s != ""
  | some (.jarr _) => true
  | some (.jobj _) => true

/-- `x || dflt` for a string-typed field value. -/
def jsOrStr (v : Option JVal) (dflt : String) : String :=
  if jsTruthy v then
    match v with
    | some (.jstr s) => s
    | _ => dflt
  else dflt

/-- `x || dflt` on an optional string (JS treats the empty string as falsy). -/
def strOr (o : Option String) (dflt : String) : String :=
  match o with
  | some s => if s = "" then dflt else s
  | none => dflt

/-- The `IMAGE` branch's `try` body: `JSON.parse(content)` then
`MessageBuilder.image({url: d.link?.preViewUrl, width: d.size?.width,
height: d.size?.height})`; any throw is caught by the caller. -/
def imageTry (content : String) : Except Unit MessageSegment :=
  match jparse content with
  | none => .error ()
  | some j => do
    let link ← jsGet j "link"
    let url ← jsOpt link "preViewUrl"
    let size ← jsGet j "size"
    let w ← jsOpt size "width"
    let h ← jsOpt size "height"
    .ok (.image none (url.bind asStr) (w.bind asInt) (h.bind asInt))

/-- The `VIDEO` branch's `try` body. -/
def videoTry (content : String) : Except Unit MessageSegment :=
  match jparse content with
  | none => .error ()
  | some j => do
    let u ← jsGet j "url"
    let d ← jsGet j "duration"
    .ok (.video none (u.bind asStr) (d.bind asInt))

/-- The `VOICE` branch's `try` body. -/
def voiceTry (content : String) : Except Unit MessageSegment :=
  match jparse content with
  | none => .error ()
  | some j => do
    let u ← jsGet j "url"
    let d ← jsGet j "duration"
    .ok (.voice none (u.bind asStr) (d.bind asInt))

/-- The `EMOTICON` branch's `try` body. -/
def emoticonTry (content : String) : Except Unit MessageSegment :=
  match jparse content with
  | none => .error ()
  | some j => do
    let idv ← jsGet j "id"
    let namev ← jsGet j "name"
    let urlv ← jsGet j "url"
    .ok (.emoticon (jsOrStr idv content) (namev.bind asStr) (urlv.bind asStr))

/-- `MessageParser.parseMessage` (message.ts lines 130–205): map one raw
discriminator/content pair to a one-segment chain; every structural parse
failure inside a branch degrades to the branch's fallback segment. -/
def parseMessage (messageType content : String) : MessageChain :=
  if messageType = "TEXT" then [.text content]
  else if messageType = "IMAGE" then
    match imageTry content with
    | .ok seg => [seg]
    | .error _ => [.text content]
  else if messageType = "VIDEO" then
    match videoTry content with
    | .ok seg => [seg]
    | .error _ => [.text content]
  else if messageType = "VOICE" then
    match voiceTry content with
    | .ok seg => [seg]
    | .error _ => [.text content]
  else if messageType = "CARD" then [.card content none]
  else if messageType = "NOTE" then [.note content none none none]
  else if messageType = "EMOTICON" then
    match emoticonTry content with
    | .ok seg => [seg]
    | .error _ => [.emoticon content none none]
  else [.text content]

/-- The per-segment arm of `MessageParser.chainToText`'s `switch`. -/
def segText : MessageSegment → String
  | .text t => t
  | .image .. => "[图片]"
  | .video .. => "[视频]"
  | .voice .. => "[语音]"
  | .card .. => "[卡片]"
  | .note .. => "[笔记]"
  | .emoticon _ name _ => strOr name "[表情]"
  | .atSeg uid name => "@" ++ strOr name uid
  | .unknownSeg _ => "[未知消息]"

/-- `MessageParser.chainToText`: `chain.map(...).join('')`. -/
def chainToText (chain : MessageChain) : String :=
  String.join (chain.map segText)



/-! ### The connection manager and protocol state machine
(websocket-client.ts)

State and transitions are embedded as one step function over discrete
events.  Timers are explicit: a `Timer` is a live (armed, not yet fired or
cancelled) `setTimeout`; the client fields `heartbeatTimer`/`reconnectTimer`
hold the id of the timer they reference.  The runtime clock is `now`; a
timer may fire only once it is live and its due time has been reached,
which is the platform's guarantee, and its callback body is embedded in the
`fire` branch of `step`. -/

/-- Static configuration (`WebSocketClientConfig` with its defaults). -/
structure ClientConfig where
  userId : String
  sellerId : String
  appId : String
  token : String
  appName : String
  appVersion : String
  retryInterval : Nat

/-- One live `setTimeout`: its handle id, whether it is the heartbeat (else
the reconnect timer), the delay it was armed with, and its absolute due
time. -/
structure Timer where
  id : Nat
  isHeartbeat : Bool
  delay : Nat
  due : Nat
deriving DecidableEq

/-- The socket field: absent (`null`), created but not yet open, or open. -/
inductive SockMode where
  | absent : SockMode
  | connecting : SockMode
  | opened : SockMode
deriving DecidableEq

/-- The mutable client state. -/
structure ClientState where
  seq : Nat
  sock : SockMode
  attached : Bool
  isConnecting : Bool
  shouldReconnect : Bool
  hbHeld : Option Nat
  rcHeld : Option Nat
  timers : List Timer
  nextId : Nat
  now : Nat

/-- The state right after construction. -/
def initState : ClientState :=
  { seq := 0, sock := .absent, attached := false, isConnecting := false,
    shouldReconnect := true, hbHeld := none, rcHeld := none, timers := [],
    nextId := 0, now := 0 }

/-- Observable effects of one step. -/
inductive Output where
  | sent (m : WSMessage)
  | rawMessage (m : WSMessage)
  | emitConnected
  | emitDisconnected
  | emitReconnecting
  | emitError
  | connectAttempt
  | uncaught

/-- `send(data)` (lines 120–137): throw when the socket is absent or not
open, throw when `type` is not numeric; otherwise increment the sequence
counter and emit the copy carrying the fresh number.  Both throws happen
before `++this.seq`, so a failure returns the state unchanged. -/
def send (st : ClientState) (d : WSMessage) : ClientState × Except String WSMessage :=
  if st.sock ≠ .opened then (st, .error "WebSocket is not connected")
  else
    match d.type with
    | none => (st, .error "WebSocketMessage missing required type field")
    | some _ =>
      ({ st with seq := st.seq + 1 }, .ok { d with seq := some ((st.seq + 1 : Nat) : Int) })

/-- `clearHeartbeat()` (lines 203–208): cancel the held heartbeat timer. -/
def clearHeartbeat (st : ClientState) : ClientState :=
  match st.hbHeld with
  | none => st
  | some i => { st with timers := st.timers.filter (fun t => t.id != i), hbHeld := none }

/-- `startHeartbeat(interval)` (lines 191–201): cancel the previous
heartbeat timer, then arm a fresh one-shot timer. -/
def startHeartbeat (interval : Nat) (st : ClientState) : ClientState :=
  let st1 := clearHeartbeat st
  { st1 with
    timers := st1.timers ++ [⟨st1.nextId, true, interval, st1.now + interval⟩],
    hbHeld := some st1.nextId,
    nextId := st1.nextId + 1 }

/-- `scheduleReconnect()` (lines 210–218): a no-op while a reconnect timer
is already pending, else arm one at `retryInterval` seconds. -/
def scheduleReconnect (cfg : ClientConfig) (st : ClientState) : ClientState :=
  match st.rcHeld with
  | some _ => st
  | none =>
    { st with
      timers := st.timers ++
        [⟨st.nextId, false, cfg.retryInterval * 1000, st.now + cfg.retryInterval * 1000⟩],
      rcHeld := some st.nextId,
      nextId := st.nextId + 1 }

/-- `cleanup()` (lines 220–224): reset the sequence counter, cancel the
heartbeat, drop the socket. -/
def cleanup (st : ClientState) : ClientState :=
  let st1 := clearHeartbeat { st with seq := 0 }
  { st1 with sock := .absent }

/-- Does an inbound frame's `data` mark a user-message push
(`message.data?.type === 'PUSH_SIXINTONG_MSG'`)? -/
def isPush (d : Option JVal) : Bool :=
  match d with
  | some (.jobj fs) =>
    match jLookup fs "type" with
    | some (.jstr s) => s == "PUSH_SIXINTONG_MSG"
    | _ => false
  | _ => false

/-- The type-12 client-info payload of the 138 reply. -/
def infoJson (cfg : ClientConfig) : JVal :=
  .jobj [("userAgent", .jobj [("appName", .jstr cfg.appName),
                              ("appVersion", .jstr cfg.appVersion)]),
         ("additionalInfo", .jobj [("userId", .jstr cfg.userId),
                                   ("sellerId", .jstr cfg.sellerId)])]

/-- `handleMessage(message)` (lines 139–189).  The third component is an
exception escaping the handler (it becomes an unhandled rejection in the
caller, which does not await the async handler). -/
def handleMessage (cfg : ClientConfig) (st : ClientState) (m : WSMessage) :
    ClientState × List Output × Option String :=
  match m.type with
  | some 2 =>
    match send st { type := some 130, ack := m.seq } with
    | (st1, .ok wm) =>
      if isPush m.data then (st1, [.sent wm, .rawMessage m], none)
      else (st1, [.sent wm], none)
    | (st1, .error e) => (st1, [], some e)
  | some 4 =>
    match send st { type := some 132 } with
    | (st1, .ok wm) => (st1, [.sent wm], none)
    | (st1, .error e) => (st1, [], some e)
  | some 129 =>
    match m.secureKey with
    | none => (st, [], some "TypeError")
    | some k =>
      match send st { type := some 10,
                      topic := some (aesEcbEncrypt k cfg.userId),
                      encrypt := some true } with
      | (st1, .ok wm) => (st1, [.sent wm], none)
      | (st1, .error e) => (st1, [], some e)
  | some 132 => (startHeartbeat 60000 st, [], none)
  | some 138 =>
    match send st { type := some 12, data := some (infoJson cfg) } with
    | (st1, .ok wm) => (st1, [.sent wm], none)
    | (st1, .error e) => (st1, [], some e)
  | some 140 => (startHeartbeat 30000 st, [], none)
  | _ => (st, [], none)

/-- The synchronous prefix of `connect()` (lines 41–51): a no-op while
already connecting or open, else mark connecting, notify observers and
create the socket with its handlers. -/
def connectStep (st : ClientState) : ClientState × List Output :=
  if st.isConnecting = true ∨ st.sock = .opened then (st, [])
  else ({ st with isConnecting := true, sock := .connecting, attached := true },
        [.emitReconnecting, .connectAttempt])

/-- Discrete events driving the client: the two public calls, socket
callbacks, a received frame, a timer firing, and clock advance. -/
inductive Event where
  | connectCall : Event
  | socketOpened : Event
  | socketErrored : Event
  | socketClosed : Event
  | frame (s : String) : Event
  | fire (id : Nat) : Event
  | advance (d : Nat) : Event
  | disconnectCall : Event

/-- One transition of the client (socket callbacks and timer callbacks are
serialized on one cooperative queue, so each runs to completion). -/
def step (cfg : ClientConfig) (st : ClientState) (e : Event) :
    ClientState × List Output :=
  match e with
  | .connectCall => connectStep st
  | .socketOpened =>
    if st.sock = .connecting then
      let st1 := { st with sock := .opened, isConnecting := false }
      match send st1 { type := some 1, token := some cfg.token, appId := some cfg.appId } with
      | (st2, .ok wm) => (st2, [.emitConnected, .sent wm])
      | (st2, .error _) => (st2, [.emitConnected])
    else (st, [])
  | .socketErrored =>
    if st.sock = .connecting then
      let st1 := { st with isConnecting := false, sock := .absent }
      let st2 := if st1.shouldReconnect then scheduleReconnect cfg st1 else st1
      (st2, [.emitError, .emitError])
    else if st.attached then (st, [.emitError])
    else (st, [])
  | .socketClosed =>
    if st.attached then
      let st1 := { cleanup st with attached := false }
      let st2 := if st1.shouldReconnect then scheduleReconnect cfg st1 else st1
      (st2, [.emitDisconnected])
    else (st, [])
  | .frame s =>
    if st.attached then
      match decodeMsg s with
      | none => (st, [])
      | some m =>
        match handleMessage cfg st m with
        | (st1, outs, none) => (st1, outs)
        | (st1, outs, some _) => (st1, outs ++ [.uncaught])
    else (st, [])
  | .fire i =>
    match st.timers.find? (fun t => t.id == i) with
    | none => (st, [])
    | some t =>
      if st.now < t.due then (st, [])
      else
        let st1 := { st with timers := st.timers.filter (fun u => u.id != i) }
        if t.isHeartbeat then
          match send st1 { type := some 4 } with
          | (st2, .ok wm) => (st2, [.sent wm])
          | (st2, .error _) => (st2, [])
        else
          connectStep { st1 with rcHeld := none }
  | .advance d => ({ st with now := st.now + d }, [])
  | .disconnectCall =>
    let st1 := { st with shouldReconnect := false }
    let st2 :=
      match st1.rcHeld with
      | some i =>
        { st1 with rcHeld := none, timers := st1.timers.filter (fun u => u.id != i) }
      | none => st1
    let st3 := clearHeartbeat st2
    (if st3.sock ≠ .absent then { st3 with sock := .absent } else st3, [])

/-- Run a list of events from a state, collecting outputs in order. -/
def run (cfg : ClientConfig) : ClientState → List Event → ClientState × List Output
  | st, [] => (st, [])
  | st, e :: es =>
    let p := step cfg st e
    let q := run cfg p.1 es
    (q.1, p.2 ++ q.2)



/-- A sample configuration for concrete instantiations. -/
def cfgEx : ClientConfig :=
  { userId := "u1", sellerId := "s1", appId := "app", token := "tok",
    appName := "walle-ad", appVersion := "0.21.0", retryInterval := 3 }

/-- A sample open-connection state. -/
def stOpen : ClientState :=
  { seq := 0, sock := .opened, attached := true, isConnecting := false,
    shouldReconnect := true, hbHeld := none, rcHeld := none, timers := [],
    nextId := 0, now := 0 }

/-- A sample open state holding one live heartbeat timer that is due. -/
def stHb : ClientState :=
  { seq := 0, sock := .opened, attached := true, isConnecting := false,
    shouldReconnect := true, hbHeld := some 0, rcHeld := none,
    timers := [⟨0, true, 60000, 0⟩], nextId := 1, now := 0 }



/-- Is an output an outbound envelope of type 130? -/
def isSent130 (o : Output) : Bool :=
  match o with
  | .sent wm => wm.type == some 130
  | _ => false

/-- Is an output any outbound envelope? -/
def isSentOut (o : Output) : Bool :=
  match o with
  | .sent _ => true
  | _ => false

/-- The mapping C3 claims, spelled out from its words: Text verbatim, At as
`@` plus display name else raw id, all other known kinds as fixed bracketed
placeholders (in particular Emoticon always as `[表情]`), unknown kinds as
the generic placeholder, concatenated left to right. -/
def segTextClaim : MessageSegment → String
  | .text t => t
  | .atSeg uid name =>
    "@" ++ (match name with
            | some n => n
            | none => uid)
  | .image .. => "[图片]"
  | .video .. => "[视频]"
  | .voice .. => "[语音]"
  | .card .. => "[卡片]"
  | .note .. => "[笔记]"
  | .emoticon .. => "[表情]"
  | .unknownSeg _ => "[未知消息]"

/-- Left-to-right concatenation of the claimed per-segment rendering. -/
def chainToTextClaim : MessageChain → String
  | [] => ""
  | s :: rest => segTextClaim s ++ chainToTextClaim rest

/-- The amended per-segment rendering: an Emoticon renders its name when a
nonempty name is present (else the placeholder), and At falls back to the
raw id also when the present name is empty. -/
def segTextAmended : MessageSegment → String
  | .text t => t
  | .atSeg uid name =>
    "@" ++ (match name with
            | some n => if n = "" then uid else n
            | none => uid)
  | .image .. => "[图片]"
  | .video .. => "[视频]"
  | .voice .. => "[语音]"
  | .card .. => "[卡片]"
  | .note .. => "[笔记]"
  | .emoticon _ name _ =>
    (match name with
     | some n => if n = "" then "[表情]" else n
     | none => "[表情]")
  | .unknownSeg _ => "[未知消息]"

/-- Left-to-right concatenation of the amended per-segment rendering. -/
def chainToTextAmended : MessageChain → String
  | [] => ""
  | s :: rest => segTextAmended s ++ chainToTextAmended rest



/-! ### C4: outbound sequence numbering -/

/-- The `seq` fields of the envelopes sent by a run, in send order. -/
def sentSeqs (outs : List Output) : List (Option Int) :=
  outs.filterMap (fun o =>
    match o with
    | .sent m => some m.seq
    | _ => none)

/-- `[a+1, a+2, ..., a+n]` as envelope sequence fields. -/
def seqRange (a n : Nat) : List (Option Int) :=
  (List.range' (a + 1) n).map (fun k => some ((k : Nat) : Int))



/-! ### C6: the heartbeat timer store -/

/-- Reachable-state invariant of the timer store: live timer ids are fresh
and distinct, every live heartbeat timer is the one the `heartbeatTimer`
field holds, and every live reconnect timer is the one the
`reconnectTimer` field holds. -/
def Inv (st : ClientState) : Prop :=
  (∀ t ∈ st.timers, t.id < st.nextId) ∧
  (st.timers.map (fun t => t.id)).Nodup ∧
  (∀ t ∈ st.timers, t.isHeartbeat = true → st.hbHeld = some t.id) ∧
  (∀ t ∈ st.timers, t.isHeartbeat = false → st.rcHeld = some t.id)



/-! ### C8: the reconnect cycle -/

/-- A state from which no automatic reconnection can ever happen:
reconnects disabled and no live reconnect timer. -/
def NoAuto (st : ClientState) : Prop :=
  st.shouldReconnect = false ∧ ∀ t ∈ st.timers, t.isHeartbeat = true


theorem jsize_pos (v : JVal) : 1 ≤ jsize v := by
  cases v <;> simp [jsize]

/-! ### Decimal digits: rendering inverts parsing -/

theorem natCsAux_congr : ∀ f g n : Nat, n < f → n < g → natCsAux f n = natCsAux g n := by
  intro f
  induction f with
  | zero => intro g n h; omega
  | succ f ih =>
    intro g n hf hg
    match g, hg with
    | g + 1, _ =>
      simp only [natCsAux]
      by_cases h10 : n < 10
      · simp [h10]
      · have hdiv : n / 10 < n := Nat.div_lt_self (by omega) (by omega)
        rw [if_neg h10, if_neg h10, ih g (n / 10) (by omega) (by omega)]

/-- `natCs` satisfies its intended recursion. -/
theorem natCs_unfold (n : Nat) :
    natCs n = if n < 10 then [digCh n] else natCs (n / 10) ++ [digCh (n % 10)] := by
  show natCsAux (n + 1) n = _
  by_cases h10 : n < 10
  · simp [natCsAux, h10]
  · have hdiv : n / 10 < n := Nat.div_lt_self (by omega) (by omega)
    simp only [natCsAux, if_neg h10]
    rw [natCsAux_congr n (n / 10 + 1) (n / 10) (by omega) (by omega)]
    rfl

theorem dig_spec : ∀ d : Nat, d < 10 → isDig (digCh d) = true ∧ chDig (digCh d) = d := by
  decide

theorem natCs_ne (n : Nat) : natCs n ≠ [] := by
  rw [natCs_unfold]
  by_cases h : n < 10 <;> simp [h]

theorem natCs_digits (n : Nat) : ∀ c ∈ natCs n, isDig c = true := by
  induction n using Nat.strong_induction_on with
  | _ n ih =>
    rw [natCs_unfold]
    by_cases h : n < 10
    · simpa [h] using (dig_spec n h).1
    · intro c hc
      rw [if_neg h, List.mem_append] at hc
      rcases hc with hc | hc
      · exact ih (n / 10) (Nat.div_lt_self (by omega) (by omega)) c hc
      · rw [List.mem_singleton] at hc
        subst hc
        exact (dig_spec (n % 10) (Nat.mod_lt _ (by omega))).1

theorem foldDigs_append (a : Nat) (ds es : List Char) :
    foldDigs a (ds ++ es) = foldDigs (foldDigs a ds) es := by
  simp [foldDigs]

theorem natCs_val (n : Nat) : foldDigs 0 (natCs n) = n := by
  induction n using Nat.strong_induction_on with
  | _ n ih =>
    rw [natCs_unfold]
    by_cases h : n < 10
    · simp [h, foldDigs, (dig_spec n h).2]
    · rw [if_neg h, foldDigs_append, ih (n / 10) (Nat.div_lt_self (by omega) (by omega))]
      simp [foldDigs, (dig_spec (n % 10) (Nat.mod_lt _ (by omega))).2]
      omega

theorem grabDigs_run (ds : List Char) (hds : ∀ c ∈ ds, isDig c = true) :
    ∀ (a : Nat) (rest : List Char), noDigHead rest →
      grabDigs a (ds ++ rest) = (foldDigs a ds, rest) := by
  induction ds with
  | nil =>
    intro a rest hrest
    match rest with
    | [] => rfl
    | c :: r => simp [grabDigs, foldDigs, show isDig c = false from hrest]
  | cons c t ih =>
    intro a rest hrest
    have hc : isDig c = true := hds c (by simp)
    have ht := ih (fun x hx => hds x (by simp [hx])) (a * 10 + chDig c) rest hrest
    simpa [grabDigs, hc, foldDigs] using ht

theorem isDig_ne_minus {c : Char} (h : isDig c = true) : c ≠ '-' := by
  intro hc; subst hc; exact absurd h (by decide)



/-! ### Round trip: `JSON.parse` inverts `JSON.stringify` -/

theorem isDig_seps {c : Char} (h : isDig c = true) :
    c ≠ 'n' ∧ c ≠ 't' ∧ c ≠ 'f' ∧ c ≠ '"' ∧ c ≠ '[' ∧ c ≠ '\x7b' ∧ c ≠ '-' ∧
    c ≠ ']' ∧ c ≠ '\x7d' ∧ c ≠ ',' ∧ c ≠ ':' ∧ c ≠ '\\' := by
  refine ⟨?_, ?_, ?_, ?_, ?_, ?_, ?_, ?_, ?_, ?_, ?_, ?_⟩ <;>
    (rintro rfl; exact absurd h (by decide))

theorem hexVal_hexCh : ∀ d : Nat, d < 16 → hexVal (hexCh d) = some d := by
  decide

/-- Parsing undoes the escaping of a single character. -/
theorem pStr_esc (c : Char) (rest : List Char) :
    pStrCs (escCh c ++ rest) = (pStrCs rest).map (fun p => (c :: p.1, p.2)) := by
  by_cases hq : c = '"'
  · subst hq; rfl
  by_cases hb : c = '\\'
  · subst hb; rfl
  by_cases h32 : 32 ≤ c.toNat
  · simp [escCh, hq, hb, h32, pStrCs]
  by_cases h8 : c.toNat = 8
  · have hc : Char.ofNat 8 = c := by rw [← h8, Char.ofNat_toNat]
    simp [escCh, hq, hb, h32, h8, pStrCs, unesc]
    rw [hc]
  by_cases h9 : c.toNat = 9
  · have hc : Char.ofNat 9 = c := by rw [← h9, Char.ofNat_toNat]
    simp [escCh, hq, hb, h32, h8, h9, pStrCs, unesc]
    rw [hc]
  by_cases hA : c.toNat = 10
  · have hc : Char.ofNat 10 = c := by rw [← hA, Char.ofNat_toNat]
    simp [escCh, hq, hb, h32, h8, h9, hA, pStrCs, unesc]
    rw [hc]
  by_cases hC : c.toNat = 12
  · have hc : Char.ofNat 12 = c := by rw [← hC, Char.ofNat_toNat]
    simp [escCh, hq, hb, h32, h8, h9, hA, hC, pStrCs, unesc]
    rw [hc]
  by_cases hD : c.toNat = 13
  · have hc : Char.ofNat 13 = c := by rw [← hD, Char.ofNat_toNat]
    simp [escCh, hq, hb, h32, h8, h9, hA, hC, hD, pStrCs, unesc]
    rw [hc]
  · have hhi := hexVal_hexCh (c.toNat / 16) (by omega)
    have hlo := hexVal_hexCh (c.toNat % 16) (by omega)
    have harith : c.toNat / 16 * 16 + c.toNat % 16 = c.toNat := by omega
    simp [escCh, hq, hb, h32, h8, h9, hA, hC, hD, pStrCs, hhi, hlo, harith,
      show hexVal '0' = some 0 from by decide,
      show c.toNat < 55296 by omega, Char.ofNat_toNat]

/-- Parsing a rendered string body stops exactly at the closing quote. -/
theorem rt_strL (l : List Char) : ∀ rest : List Char,
    pStrCs (l.flatMap escCh ++ '"' :: rest) = some (l, rest) := by
  induction l with
  | nil => intro rest; rfl
  | cons c t ih =>
    intro rest
    rw [List.flatMap_cons, List.append_assoc, pStr_esc, ih]
    rfl

/-- `pInt` on a minus sign followed by a digit run. -/
theorem pInt_neg_step (d : Char) (cs' : List Char) (hd : isDig d = true) :
    pInt ('-' :: d :: cs') =
      some (-(((grabDigs (chDig d) cs').1 : Nat) : Int), (grabDigs (chDig d) cs').2) := by
  simp [pInt, hd]

/-- `pInt` on a digit head. -/
theorem pInt_pos_step (c : Char) (cs : List Char) (hc : isDig c = true) :
    pInt (c :: cs) =
      some ((((grabDigs (chDig c) cs).1 : Nat) : Int), (grabDigs (chDig c) cs).2) := by
  simp [pInt, (isDig_seps hc).2.2.2.2.2.2.1, hc]

/-- The shape of a rendered natural number. -/
theorem natCs_shape (n : Nat) : ∃ c t, natCs n = c :: t ∧ isDig c = true ∧
    (∀ x ∈ t, isDig x = true) ∧ foldDigs (chDig c) t = n := by
  obtain ⟨c, t, hct⟩ : ∃ c t, natCs n = c :: t := by
    match h : natCs n with
    | [] => exact absurd h (natCs_ne _)
    | c :: t => exact ⟨c, t, rfl⟩
  refine ⟨c, t, hct, natCs_digits _ c (hct ▸ List.mem_cons_self ..),
    fun x hx => natCs_digits n x (hct ▸ List.mem_cons_of_mem _ hx), ?_⟩
  have := natCs_val n
  rw [hct] at this
  simpa [foldDigs] using this

/-- The integer codec round trip, whenever the remainder cannot extend the
digit run. -/
theorem pInt_rt (i : Int) (rest : List Char) (hrest : noDigHead rest) :
    pInt (intCs i ++ rest) = some (i, rest) := by
  obtain ⟨c, t, hct, hc, ht, hval⟩ := natCs_shape i.natAbs
  have hgrab := grabDigs_run t ht (chDig c) rest hrest
  by_cases hneg : i < 0
  · rw [show intCs i ++ rest = '-' :: (c :: (t ++ rest)) by
      simp [intCs, if_pos hneg, hct]]
    rw [pInt_neg_step c _ hc, hgrab, hval]
    have : -((i.natAbs : Nat) : Int) = i := by omega
    rw [this]
  · rw [show intCs i ++ rest = c :: (t ++ rest) by
      simp [intCs, if_neg hneg, hct]]
    rw [pInt_pos_step c _ hc, hgrab, hval]
    have : ((i.natAbs : Nat) : Int) = i := by omega
    rw [this]

/-- Every rendered value is nonempty and starts with a character other than
the array-close bracket. -/
theorem rVal_head (v : JVal) : ∃ c t, rVal v = c :: t ∧ c ≠ ']' := by
  cases v with
  | jnull => exact ⟨'n', _, rfl, by decide⟩
  | jbool b => cases b with
    | true => exact ⟨'t', _, rfl, by decide⟩
    | false => exact ⟨'f', _, rfl, by decide⟩
  | jint i =>
    obtain ⟨c, t, hct, hc, -, -⟩ := natCs_shape i.natAbs
    by_cases hneg : i < 0
    · exact ⟨'-', natCs i.natAbs, by simp [rVal, intCs, hneg], by decide⟩
    · exact ⟨c, t, by simp [rVal, intCs, hneg, hct], (isDig_seps hc).2.2.2.2.2.2.2.1⟩
  | jstr s => exact ⟨'"', _, rfl, by decide⟩
  | jarr xs => cases xs with
    | nil => exact ⟨'[', _, rfl, by decide⟩
    | cons x xs => exact ⟨'[', _, rfl, by decide⟩
  | jobj fs => cases fs with
    | nil => exact ⟨'\x7b', _, rfl, by decide⟩
    | cons f fs => exact ⟨'\x7b', _, rfl, by decide⟩

theorem noDig_rTail (xs : List JVal) (r : List Char) : noDigHead (rTail xs ++ r) := by
  cases xs <;> simp [rTail, noDigHead] <;> decide

theorem noDig_rFTail (fs : List (String × JVal)) (r : List Char) :
    noDigHead (rFTail fs ++ r) := by
  cases fs <;> simp [rFTail, noDigHead] <;> decide

/-- Dispatch of the parser on an integer head character. -/
theorem pVal_int_step (f : Nat) (c : Char) (l : List Char)
    (h : isDig c = true ∨ c = '-') :
    pVal (f + 1) (c :: l) = (pInt (c :: l)).map (fun p => (.jint p.1, p.2)) := by
  rcases h with h | h
  · obtain ⟨h1, h2, h3, h4, h5, h6, _⟩ := isDig_seps h
    simp [pVal, h1, h2, h3, h4, h5, h6]
  · subst h; rfl



theorem pVal_arr2 (f : Nat) (c : Char) (l : List Char) (h : c ≠ ']') :
    pVal (f + 1) ('[' :: c :: l) =
      (match pVal f (c :: l) with
       | none => none
       | some (v, r1) =>
         match pItems f r1 with
         | none => none
         | some (vs, r2) => some (.jarr (v :: vs), r2)) := by
  simp [pVal, h]

theorem pVal_obj_fld (f : Nat) (l : List Char) :
    pVal (f + 1) ('\x7b' :: '"' :: l) =
      (match pStrCs l with
       | none => none
       | some (k, r1) =>
         match r1 with
         | ':' :: r2 =>
           match pVal f r2 with
           | none => none
           | some (v, r3) =>
             match pFields f r3 with
             | none => none
             | some (fs, r4) => some (.jobj ((String.mk k, v) :: fs), r4)
         | _ => none) := by
  rfl

mutual

/-- Parsing a rendered value (with any non-digit-headed continuation)
recovers the value, given fuel at least its size. -/
theorem rt_val : ∀ (v : JVal) (fuel : Nat) (rest : List Char),
    jsize v ≤ fuel → noDigHead rest → pVal fuel (rVal v ++ rest) = some (v, rest)
  | .jnull, fuel, rest, hf, _ => by
    cases fuel with
    | zero => simp [jsize] at hf
    | succ f => rfl
  | .jbool true, fuel, rest, hf, _ => by
    cases fuel with
    | zero => simp [jsize] at hf
    | succ f => rfl
  | .jbool false, fuel, rest, hf, _ => by
    cases fuel with
    | zero => simp [jsize] at hf
    | succ f => rfl
  | .jint i, fuel, rest, hf, hrest => by
    cases fuel with
    | zero => simp [jsize] at hf
    | succ f =>
      obtain ⟨c, t, hct, hc, -, -⟩ := natCs_shape i.natAbs
      by_cases hneg : i < 0
      · rw [show rVal (.jint i) ++ rest = '-' :: (c :: (t ++ rest)) from by
          simp [rVal, intCs, hneg, hct]]
        rw [pVal_int_step f '-' _ (Or.inr rfl)]
        rw [show ('-' : Char) :: (c :: (t ++ rest)) = intCs i ++ rest from by
          simp [intCs, hneg, hct]]
        rw [pInt_rt i rest hrest]
        rfl
      · rw [show rVal (.jint i) ++ rest = c :: (t ++ rest) from by
          simp [rVal, intCs, hneg, hct]]
        rw [pVal_int_step f c _ (Or.inl hc)]
        rw [show c :: (t ++ rest) = intCs i ++ rest from by simp [intCs, hneg, hct]]
        rw [pInt_rt i rest hrest]
        rfl
  | .jstr s, fuel, rest, hf, _ => by
    cases fuel with
    | zero => simp [jsize] at hf
    | succ f =>
      rw [show rVal (.jstr s) ++ rest = '"' :: (s.data.flatMap escCh ++ '"' :: rest) from by
        simp [rVal, rStr]]
      simp [pVal, rt_strL]
  | .jarr [], fuel, rest, hf, _ => by
    cases fuel with
    | zero => simp [jsize, jsizeL] at hf
    | succ f => rfl
  | .jarr (x :: xs), fuel, rest, hf, _ => by
    cases fuel with
    | zero => simp only [jsize, jsizeL] at hf; omega
    | succ f =>
      simp only [jsize, jsizeL] at hf
      have hpos := jsize_pos x
      obtain ⟨c, t, hct, hcne⟩ := rVal_head x
      have hx := rt_val x f (rTail xs ++ rest) (by omega) (noDig_rTail xs rest)
      have hxs := rt_items xs f rest (by omega)
      have hshape : rVal (JVal.jarr (x :: xs)) ++ rest =
          '[' :: (c :: (t ++ (rTail xs ++ rest))) := by
        simp [rVal, hct]
      rw [hshape, pVal_arr2 f c _ hcne]
      rw [show c :: (t ++ (rTail xs ++ rest)) = rVal x ++ (rTail xs ++ rest) from by
        simp [hct]]
      rw [hx]
      simp [hxs]
  | .jobj [], fuel, rest, hf, _ => by
    cases fuel with
    | zero => simp [jsize, jsizeF] at hf
    | succ f => rfl
  | .jobj ((k, v) :: fs), fuel, rest, hf, _ => by
    cases fuel with
    | zero => simp only [jsize, jsizeF] at hf; omega
    | succ f =>
      simp only [jsize, jsizeF] at hf
      have hpos := jsize_pos v
      have hv := rt_val v f (rFTail fs ++ rest) (by omega) (noDig_rFTail fs rest)
      have hfs := rt_fields fs f rest (by omega)
      have hshape : rVal (JVal.jobj ((k, v) :: fs)) ++ rest =
          '\x7b' :: ('"' ::
            (k.data.flatMap escCh ++ '"' :: (':' :: (rVal v ++ (rFTail fs ++ rest))))) := by
        simp [rVal, rFld, rStr]
      rw [hshape, pVal_obj_fld, rt_strL]
      simp [hv, hfs]

/-- Parsing a rendered array tail recovers the items. -/
theorem rt_items : ∀ (xs : List JVal) (fuel : Nat) (rest : List Char),
    jsizeL xs < fuel → pItems fuel (rTail xs ++ rest) = some (xs, rest)
  | [], fuel, rest, hf => by
    cases fuel with
    | zero => omega
    | succ f => rfl
  | x :: xs, fuel, rest, hf => by
    cases fuel with
    | zero => omega
    | succ f =>
      simp only [jsizeL] at hf
      have hpos := jsize_pos x
      have hx := rt_val x f (rTail xs ++ rest) (by omega) (noDig_rTail xs rest)
      have hxs := rt_items xs f rest (by omega)
      have hshape : rTail (x :: xs) ++ rest = ',' :: (rVal x ++ (rTail xs ++ rest)) := by
        simp [rTail]
      rw [hshape]
      simp [pItems, hx, hxs]

/-- Parsing a rendered object member tail recovers the members. -/
theorem rt_fields : ∀ (fs : List (String × JVal)) (fuel : Nat) (rest : List Char),
    jsizeF fs < fuel → pFields fuel (rFTail fs ++ rest) = some (fs, rest)
  | [], fuel, rest, hf => by
    cases fuel with
    | zero => omega
    | succ f => rfl
  | (k, v) :: fs, fuel, rest, hf => by
    cases fuel with
    | zero => omega
    | succ f =>
      simp only [jsizeF] at hf
      have hpos := jsize_pos v
      have hv := rt_val v f (rFTail fs ++ rest) (by omega) (noDig_rFTail fs rest)
      have hfs := rt_fields fs f rest (by omega)
      have hshape : rFTail ((k, v) :: fs) ++ rest =
          ',' :: ('"' ::
            (k.data.flatMap escCh ++ '"' :: (':' :: (rVal v ++ (rFTail fs ++ rest))))) := by
        simp [rFTail, rFld, rStr]
      rw [hshape]
      simp [pFields, rt_strL, hv, hfs]

end




theorem intCs_ne (i : Int) : intCs i ≠ [] := by
  unfold intCs
  by_cases h : i < 0
  · simp [h]
  · simp [h, natCs_ne]

mutual

/-- The rendering of a value is at least as long as its parse-step count. -/
theorem jsize_le_rlen : ∀ v : JVal, jsize v ≤ (rVal v).length
  | .jnull => by simp [jsize, rVal]
  | .jbool true => by simp [jsize, rVal]
  | .jbool false => by simp [jsize, rVal]
  | .jint i => by
    have := List.length_pos.mpr (intCs_ne i)
    simp only [jsize, rVal]
    omega
  | .jstr s => by simp [jsize, rVal, rStr]
  | .jarr [] => by simp [jsize, jsizeL, rVal]
  | .jarr (x :: xs) => by
    have h1 := jsize_le_rlen x
    have h2 := jsizeL_lt_rTail xs
    simp only [jsize, jsizeL, rVal, List.length_cons, List.length_append]
    omega
  | .jobj [] => by simp [jsize, jsizeF, rVal]
  | .jobj ((k, v) :: fs) => by
    have h1 := jsize_le_rlen v
    have h2 := jsizeF_lt_rFTail fs
    simp only [jsize, jsizeF, rVal, rFld, List.length_cons, List.length_append]
    omega

theorem jsizeL_lt_rTail : ∀ xs : List JVal, jsizeL xs < (rTail xs).length
  | [] => by simp [jsizeL, rTail]
  | x :: xs => by
    have h1 := jsize_le_rlen x
    have h2 := jsizeL_lt_rTail xs
    simp only [jsizeL, rTail, List.length_cons, List.length_append]
    omega

theorem jsizeF_lt_rFTail : ∀ fs : List (String × JVal), jsizeF fs < (rFTail fs).length
  | [] => by simp [jsizeF, rFTail]
  | (k, v) :: fs => by
    have h1 := jsize_le_rlen v
    have h2 := jsizeF_lt_rFTail fs
    simp only [jsizeF, rFTail, rFld, List.length_cons, List.length_append]
    omega

end


/-- The JSON codec round trip: parsing a rendered value gives it back. -/
theorem jparse_jrender (v : JVal) : jparse (jrender v) = some v := by
  have h := rt_val v ((rVal v).length + 1) [] (by have := jsize_le_rlen v; omega) trivial
  rw [List.append_nil] at h
  unfold jparse jrender
  simp [h]

theorem jLookup_append (fs1 fs2 : List (String × JVal)) (k : String) :
    jLookup (fs1 ++ fs2) k =
      (match jLookup fs2 k with
       | some r => some r
       | none => jLookup fs1 k) := by
  induction fs1 with
  | nil =>
    rcases h2 : jLookup fs2 k with _ | r <;> simp [jLookup, h2]
  | cons f fs ih =>
    obtain ⟨k', v⟩ := f
    rcases h2 : jLookup fs2 k with _ | r <;> rcases h1 : jLookup fs k with _ | r' <;>
      simp [jLookup, ih, h1, h2]

theorem jLookup_hit (k : String) (v : Option JVal) : jLookup (optField k v) k = v := by
  cases v <;> simp [optField, jLookup]

theorem jLookup_miss {k' k : String} (h : k' ≠ k) (v : Option JVal) :
    jLookup (optField k' v) k = none := by
  cases v <;> simp [optField, jLookup, h]

theorem asInt_rt (o : Option Int) : (o.map JVal.jint).bind asInt = o := by
  cases o <;> rfl

theorem asStr_rt (o : Option String) : (o.map JVal.jstr).bind asStr = o := by
  cases o <;> rfl

theorem asBool_rt (o : Option Bool) : (o.map JVal.jbool).bind asBool = o := by
  cases o <;> rfl

theorem matchCollapse (o : Option JVal) :
    (match o with | some r => some r | none => none) = o := by
  cases o <;> rfl

/-- Projecting the serialized object recovers every envelope field. -/
theorem envFromJson_msgJson (m : WSMessage) : envFromJson (msgJson m) = m := by
  obtain ⟨t, sq, ak, tk, ap, tp, en, sk, da⟩ := m
  simp [msgJson, envFromJson, jLookup_append, jLookup_hit, jLookup_miss,
    matchCollapse, asInt_rt, asStr_rt, asBool_rt]

/-- Decoding inverts serialization on every envelope. -/
theorem decode_encodeWire (m : WSMessage) : decodeMsg (encodeWire m) = some m := by
  unfold decodeMsg encodeWire
  rw [jparse_jrender]
  simp [envFromJson_msgJson]



set_option maxRecDepth 4000 in
/-- The embedded AES-128 block cipher reproduces the FIPS 197 appendix C.1
example (key `000102...0f`, plaintext `00112233...ff`). -/
theorem aesBlock_fips197 :
    aesBlock [0, 1, 2, 3, 4, 5, 6, 7, 8, 9, 10, 11, 12, 13, 14, 15]
      [0, 17, 34, 51, 68, 85, 102, 119, 136, 153, 170, 187, 204, 221, 238, 255] =
      [105, 196, 224, 216, 106, 123, 4, 48, 216, 205, 183, 128, 112, 180, 197, 90] := by
  decide

/-- `Buffer.alloc(L)` + copy + `subarray(0, 16)`, for any `L ≥ 16`: the
first 16 bytes of the source, zero-filled. -/
theorem bufCopy_take (L : Nat) (hL : 16 ≤ L) (kb : List Nat) :
    (bufCopy L kb).take 16 = kb.take 16 ++ List.replicate (16 - kb.length) 0 := by
  unfold bufCopy
  rw [List.take_append_eq_append_take, List.take_take, List.take_replicate]
  congr 1
  · congr 1
    omega
  · congr 1
    simp only [List.length_take]
    omega

/-- The three length-class branches of the key adjustment collapse to one
description: the effective key window is the first 16 key bytes, zero-filled
to exactly 16 bytes. -/
theorem adjustKey_take (kb : List Nat) :
    (adjustKey kb).take 16 = kb.take 16 ++ List.replicate (16 - kb.length) 0 := by
  unfold adjustKey
  by_cases h16 : kb.length ≤ 16
  · rw [if_pos h16, bufCopy_take 16 (by omega) kb]
  · by_cases h24 : kb.length ≤ 24
    · rw [if_neg h16, if_pos h24, bufCopy_take 24 (by omega) kb]
    · rw [if_neg h16, if_neg h24, bufCopy_take 32 (by omega) kb]



/-! ### Characterizing `send` -/

theorem send_ok {st st' : ClientState} {d wm : WSMessage}
    (h : send st d = (st', .ok wm)) :
    st' = { st with seq := st.seq + 1 } ∧
    wm = { d with seq := some ((st.seq + 1 : Nat) : Int) } ∧ st.sock = .opened := by
  unfold send at h
  split at h
  · simp at h
  · rename_i hs
    split at h
    · simp at h
    · simp only [Prod.mk.injEq, Except.ok.injEq] at h
      refine ⟨h.1.symm, h.2.symm, ?_⟩
      by_contra hne
      exact hs (by simpa using hne)

theorem send_err {st st' : ClientState} {d : WSMessage} {e : String}
    (h : send st d = (st', .error e)) : st' = st := by
  unfold send at h
  split at h
  · simp only [Prod.mk.injEq] at h
    exact h.1.symm
  · split at h
    · simp only [Prod.mk.injEq] at h
      exact h.1.symm
    · simp at h

/-- C10: a `send` whose precondition fails (socket absent or not open, or
`type` not numeric) throws with the state unchanged — the sequence counter
is not consumed. -/
theorem sendPreconditionFailureLeavesStateUnchanged :
    ∀ (st : ClientState) (d : WSMessage), st.sock ≠ .opened ∨ d.type = none →
      ∃ e, send st d = (st, Except.error e) := by
  intro st d h
  rcases h with h | h
  · exact ⟨"WebSocket is not connected", by simp [send, h]⟩
  · by_cases hs : st.sock = .opened
    · refine ⟨"WebSocketMessage missing required type field", ?_⟩
      simp only [send, h]
      rw [if_neg (by simp [hs])]
    · exact ⟨"WebSocket is not connected", by simp [send, hs]⟩

theorem sendPreconditionFailureLeavesStateUnchangedWitness :
    (∃ e, send initState { type := some 1 } = (initState, Except.error e)) ∧
    (∃ e, send stOpen { data := some (JVal.jstr "x") } = (stOpen, Except.error e)) :=
  ⟨sendPreconditionFailureLeavesStateUnchanged initState { type := some 1 }
      (Or.inl (by decide)),
   sendPreconditionFailureLeavesStateUnchanged stOpen { data := some (JVal.jstr "x") }
      (Or.inr rfl)⟩

/-- C9: an inbound 129 carrying a secure key, on an open socket, produces
exactly the type-10 reply whose topic is the vendor encryption of the key
with the configured user id and whose encrypt flag is true; and the
effective key window of that encryption is always the first 16 key bytes
zero-filled to exactly 16. -/
theorem secureKeyReplyUsesVendorEncryption :
    (∀ (cfg : ClientConfig) (st : ClientState) (m : WSMessage) (K : String),
      st.sock = .opened → m.type = some 129 → m.secureKey = some K →
      handleMessage cfg st m =
        ({ st with seq := st.seq + 1 },
         [Output.sent { type := some 10, seq := some ((st.seq + 1 : Nat) : Int),
                        topic := some (aesEcbEncrypt K cfg.userId),
                        encrypt := some true }],
         none)) ∧
    (∀ kb : List Nat,
      (adjustKey kb).take 16 = kb.take 16 ++ List.replicate (16 - kb.length) 0) := by
  constructor
  · intro cfg st m K hs ht hk
    simp only [handleMessage, ht, hk]
    simp [send, hs]
  · exact adjustKey_take

theorem secureKeyReplyUsesVendorEncryptionWitness :
    (handleMessage cfgEx stOpen { type := some 129, secureKey := some "testSecureKey" } =
      ({ stOpen with seq := 1 },
       [Output.sent { type := some 10, seq := some 1,
                      topic := some (aesEcbEncrypt "testSecureKey" "u1"),
                      encrypt := some true }],
       none)) ∧
    (adjustKey [1, 2, 3]).take 16 = [1, 2, 3].take 16 ++ List.replicate 13 0 :=
  ⟨secureKeyReplyUsesVendorEncryption.1 cfgEx stOpen
      { type := some 129, secureKey := some "testSecureKey" } "testSecureKey" rfl rfl rfl,
   secureKeyReplyUsesVendorEncryption.2 [1, 2, 3]⟩

/-- C5: an inbound type-2 envelope with `seq = S`, processed on an open
socket, produces the type-130 ack with `ack = S` as its first output,
exactly one type-130 send in total, and nothing else is sent — in
particular the ack precedes any forwarding of the embedded payload. -/
theorem inbound2ProducesExactlyOneAck :
    ∀ (cfg : ClientConfig) (st : ClientState) (m : WSMessage) (S : Int),
      st.sock = .opened → m.type = some 2 → m.seq = some S →
      handleMessage cfg st m =
        ({ st with seq := st.seq + 1 },
         Output.sent { type := some 130, seq := some ((st.seq + 1 : Nat) : Int),
                       ack := some S } ::
           (if isPush m.data then [Output.rawMessage m] else []),
         none) ∧
      ((handleMessage cfg st m).2.1.countP isSent130 = 1) ∧
      (∀ o ∈ (handleMessage cfg st m).2.1.tail, isSentOut o = false) := by
  intro cfg st m S hs ht hseq
  have hmain : handleMessage cfg st m =
      ({ st with seq := st.seq + 1 },
       Output.sent { type := some 130, seq := some ((st.seq + 1 : Nat) : Int),
                     ack := some S } ::
         (if isPush m.data then [Output.rawMessage m] else []),
       none) := by
    simp only [handleMessage, ht, hseq]
    by_cases hp : isPush m.data = true
    · simp [send, hs, hp]
    · simp [send, hs, hp]
  refine ⟨hmain, ?_, ?_⟩
  · rw [hmain]
    by_cases hp : isPush m.data = true <;>
      simp [hp, List.countP_cons, isSent130]
  · rw [hmain]
    by_cases hp : isPush m.data = true <;> simp [hp, isSentOut]

theorem inbound2ProducesExactlyOneAckWitness :
    handleMessage cfgEx stOpen { type := some 2, seq := some 7 } =
      ({ stOpen with seq := 1 },
       Output.sent { type := some 130, seq := some 1, ack := some 7 } ::
         (if isPush (none : Option JVal) then
            [Output.rawMessage { type := some 2, seq := some 7 }]
          else []),
       none) ∧
    ((handleMessage cfgEx stOpen { type := some 2, seq := some 7 }).2.1.countP isSent130 = 1) ∧
    (∀ o ∈ (handleMessage cfgEx stOpen { type := some 2, seq := some 7 }).2.1.tail,
      isSentOut o = false) :=
  inbound2ProducesExactlyOneAck cfgEx stOpen { type := some 2, seq := some 7 } 7 rfl rfl rfl

/-- C2 as stated is false: the heartbeat ping sent on schedule (when the
armed timer fires) is an envelope of type 4, not 132; at the concrete due
timer below the fired ping has type 4. -/
theorem scheduledPingCounterexample :
    (step cfgEx stHb (Event.fire 0)).2 =
      [Output.sent { type := some 4, seq := some 1 }] ∧
    (some (4 : Int) ≠ some (132 : Int)) :=
  ⟨rfl, by decide⟩

/-- C2 amended: the ping sent in reply to an inbound type-4 probe is an
outbound envelope of type 132, while the ping sent on schedule (when the
armed heartbeat timer fires) is an outbound envelope of type 4. -/
theorem heartbeatPingTypeCodes :
    (∀ (cfg : ClientConfig) (st : ClientState) (m : WSMessage),
      st.sock = .opened → m.type = some 4 →
      handleMessage cfg st m =
        ({ st with seq := st.seq + 1 },
         [Output.sent { type := some 132, seq := some ((st.seq + 1 : Nat) : Int) }],
         none)) ∧
    (∀ (cfg : ClientConfig) (st : ClientState) (i : Nat) (t : Timer),
      st.timers.find? (fun u => u.id == i) = some t → t.isHeartbeat = true →
      t.due ≤ st.now → st.sock = .opened →
      (step cfg st (Event.fire i)).2 =
        [Output.sent { type := some 4, seq := some ((st.seq + 1 : Nat) : Int) }]) := by
  constructor
  · intro cfg st m hs ht
    simp only [handleMessage, ht]
    simp [send, hs]
  · intro cfg st i t hfind hhb hdue hs
    simp only [step, hfind]
    rw [if_neg (by omega)]
    simp [hhb, send, hs]

theorem heartbeatPingTypeCodesWitness :
    (handleMessage cfgEx stOpen { type := some 4 } =
      ({ stOpen with seq := 1 },
       [Output.sent { type := some 132, seq := some 1 }], none)) ∧
    ((step cfgEx stHb (Event.fire 0)).2 = [Output.sent { type := some 4, seq := some 1 }]) :=
  ⟨heartbeatPingTypeCodes.1 cfgEx stOpen { type := some 4 } rfl rfl,
   heartbeatPingTypeCodes.2 cfgEx stHb 0 ⟨0, true, 60000, 0⟩ rfl rfl (by decide) rfl⟩



theorem strFoldl_acc (l : List String) :
    ∀ a : String, l.foldl (· ++ ·) a = a ++ l.foldl (· ++ ·) "" := by
  induction l with
  | nil => intro a; simp [List.foldl]
  | cons x xs ih =>
    intro a
    simp only [List.foldl]
    rw [ih (a ++ x), ih ("" ++ x), ← String.append_assoc]
    simp

/-- `join ('' -seeded fold) unrolls one element at a time. -/
theorem strJoin_cons (a : String) (l : List String) :
    String.join (a :: l) = a ++ String.join l := by
  show (a :: l).foldl (· ++ ·) "" = a ++ l.foldl (· ++ ·) ""
  simp only [List.foldl]
  rw [strFoldl_acc l ("" ++ a)]
  simp

/-- C7: with discriminator `IMAGE`, a content string whose JSON parse fails
degrades to the one-segment text chain; the concrete malformed example
evaluates to that chain; and `parseMessage` is total with a one-segment
chain for every discriminator/content pair (no failure propagates). -/
theorem malformedImageContentDegradesToText :
    (∀ content : String, jparse content = none →
      parseMessage "IMAGE" content = [MessageSegment.text content]) ∧
    parseMessage "IMAGE" "\x7bnot json" = [MessageSegment.text "\x7bnot json"] ∧
    (∀ t c : String, (parseMessage t c).length = 1) := by
  refine ⟨?_, rfl, ?_⟩
  · intro content h
    simp [parseMessage, imageTry, h]
  · intro t c
    unfold parseMessage
    repeat' split
    all_goals rfl

theorem malformedImageContentDegradesToTextWitness :
    jparse "xyz" = none ∧ parseMessage "IMAGE" "xyz" = [MessageSegment.text "xyz"] :=
  ⟨rfl, malformedImageContentDegradesToText.1 "xyz" rfl⟩

/-- C3 as stated is false: an Emoticon segment carrying a display name
renders that name, not the fixed placeholder. -/
theorem emoticonRendersItsNameCounterexample :
    chainToText [MessageSegment.emoticon "e1" (some "smile") none] = "smile" ∧
    chainToTextClaim [MessageSegment.emoticon "e1" (some "smile") none] = "[表情]" ∧
    ("smile" : String) ≠ "[表情]" := by
  refine ⟨?_, rfl, by decide⟩
  show String.join ["smile"] = "smile"
  rw [strJoin_cons]
  rfl

/-- C3 amended: `chainToText` renders segments left to right with no
separator, Text verbatim, At as `@` plus the nonempty display name else the
raw id, Emoticon as its nonempty display name else `[表情]`, the other
known kinds as their fixed placeholders, and unknown kinds as the generic
placeholder. -/
theorem chainToTextRendersSegmentsInOrder :
    ∀ chain : MessageChain, chainToText chain = chainToTextAmended chain := by
  intro chain
  induction chain with
  | nil => rfl
  | cons s rest ih =>
    show String.join (segText s :: rest.map segText) = _
    rw [strJoin_cons]
    show segText s ++ chainToText rest = _
    rw [ih]
    have hseg : segText s = segTextAmended s := by cases s <;> rfl
    rw [hseg]
    rfl



/-- C1 as stated is false: the outbound path overwrites `seq` with the
freshly assigned number, so decoding the encoded form of an envelope that
already carries a different `seq` does not give the envelope back. -/
theorem roundTripCounterexample :
    decodeMsg (sendEncode 0 { type := some 1, seq := some 42 }) =
      some { type := some 1, seq := some 1 } ∧
    decodeMsg (sendEncode 0 { type := some 1, seq := some 42 }) ≠
      some { type := some 1, seq := some 42 } := by
  refine ⟨by rfl, ?_⟩
  intro h
  have h2 := congrArg (fun o => Option.map (fun m => m.seq) o) h
  rw [show decodeMsg (sendEncode 0 { type := some 1, seq := some 42 }) =
      some { type := some 1, seq := some 1 } from rfl] at h2
  simp at h2

/-- C1 amended: decoding inverts serialization on every envelope, and the
full outbound path (copy, assign the next sequence number, stringify)
decodes back to the envelope with its `seq` replaced by the freshly
assigned number — the round trip is the identity exactly on envelopes
already carrying the next sequence number. -/
theorem decodeInvertsEncode :
    (∀ m : WSMessage, decodeMsg (encodeWire m) = some m) ∧
    (∀ (seqCtr : Nat) (e : WSMessage),
      decodeMsg (sendEncode seqCtr e) =
        some { e with seq := some ((seqCtr + 1 : Nat) : Int) }) := by
  refine ⟨decode_encodeWire, ?_⟩
  intro n e
  unfold sendEncode
  exact decode_encodeWire _

theorem sentSeqs_append (xs ys : List Output) :
    sentSeqs (xs ++ ys) = sentSeqs xs ++ sentSeqs ys := by
  simp [sentSeqs]

theorem seqRange_zero (a : Nat) : seqRange a 0 = [] := rfl

theorem seqRange_one (a : Nat) : seqRange a 1 = [some ((a + 1 : Nat) : Int)] := rfl

theorem seqRange_append (a n m : Nat) :
    seqRange a n ++ seqRange (a + n) m = seqRange a (n + m) := by
  unfold seqRange
  rw [← List.map_append]
  congr 1
  have := List.range'_append (a + 1) n m 1
  simpa [Nat.add_comm m n, Nat.add_assoc, Nat.add_comm 1 n] using this

theorem clearHeartbeat_seq (st : ClientState) : (clearHeartbeat st).seq = st.seq := by
  unfold clearHeartbeat
  split <;> rfl

theorem startHeartbeat_seq (iv : Nat) (st : ClientState) :
    (startHeartbeat iv st).seq = st.seq := by
  unfold startHeartbeat
  simp [clearHeartbeat_seq]

theorem scheduleReconnect_seq (cfg : ClientConfig) (st : ClientState) :
    (scheduleReconnect cfg st).seq = st.seq := by
  unfold scheduleReconnect
  split <;> rfl

theorem connectStep_seqs (st : ClientState) :
    (connectStep st).1.seq = st.seq ∧ sentSeqs (connectStep st).2 = [] := by
  unfold connectStep
  split <;> simp [sentSeqs]

/-- Every protocol reaction sends consecutively numbered envelopes starting
right above the current counter, and leaves the counter at the last number
used. -/
theorem handleMessage_seqs (cfg : ClientConfig) (st : ClientState) (m : WSMessage) :
    ∃ n, (handleMessage cfg st m).1.seq = st.seq + n ∧
      sentSeqs (handleMessage cfg st m).2.1 = seqRange st.seq n := by
  unfold handleMessage
  split
  · -- inbound 2
    rcases hsend : send st { type := some 130, ack := m.seq } with ⟨st1, e | wm⟩
    · have h1 := send_err hsend
      exact ⟨0, by simp [hsend, h1], by simp [hsend, sentSeqs, seqRange_zero]⟩
    · obtain ⟨h1, h2, -⟩ := send_ok hsend
      refine ⟨1, ?_, ?_⟩
      · by_cases hp : isPush m.data = true <;> simp [hsend, hp, h1]
      · by_cases hp : isPush m.data = true <;>
          simp [hsend, hp, h1, h2, sentSeqs, seqRange_one]
  · -- inbound 4
    rcases hsend : send st { type := some 132 } with ⟨st1, e | wm⟩
    · have h1 := send_err hsend
      exact ⟨0, by simp [hsend, h1], by simp [hsend, sentSeqs, seqRange_zero]⟩
    · obtain ⟨h1, h2, -⟩ := send_ok hsend
      exact ⟨1, by simp [hsend, h1], by simp [hsend, h1, h2, sentSeqs, seqRange_one]⟩
  · -- inbound 129
    split
    · exact ⟨0, by simp, by simp [sentSeqs, seqRange_zero]⟩
    · rename_i K _
      rcases hsend :
          send st { type := some 10, topic := some (aesEcbEncrypt K cfg.userId),
                    encrypt := some true } with
        ⟨st1, e | wm⟩
      · have h1 := send_err hsend
        exact ⟨0, by simp [hsend, h1], by simp [hsend, sentSeqs, seqRange_zero]⟩
      · obtain ⟨h1, h2, -⟩ := send_ok hsend
        exact ⟨1, by simp [hsend, h1], by simp [hsend, h1, h2, sentSeqs, seqRange_one]⟩
  · -- inbound 132
    exact ⟨0, by simp [startHeartbeat_seq], by simp [sentSeqs, seqRange_zero]⟩
  · -- inbound 138
    rcases hsend : send st { type := some 12, data := some (infoJson cfg) } with ⟨st1, e | wm⟩
    · have h1 := send_err hsend
      exact ⟨0, by simp [hsend, h1], by simp [hsend, sentSeqs, seqRange_zero]⟩
    · obtain ⟨h1, h2, -⟩ := send_ok hsend
      exact ⟨1, by simp [hsend, h1], by simp [hsend, h1, h2, sentSeqs, seqRange_one]⟩
  · -- inbound 140
    exact ⟨0, by simp [startHeartbeat_seq], by simp [sentSeqs, seqRange_zero]⟩
  · -- unknown type
    exact ⟨0, by simp, by simp [sentSeqs, seqRange_zero]⟩



/-- Any event other than a socket close sends consecutively numbered
envelopes starting above the current counter. -/
theorem step_seqs (cfg : ClientConfig) (st : ClientState) (e : Event)
    (hne : e ≠ Event.socketClosed) :
    ∃ n, (step cfg st e).1.seq = st.seq + n ∧
      sentSeqs (step cfg st e).2 = seqRange st.seq n := by
  cases e with
  | connectCall =>
    obtain ⟨h1, h2⟩ := connectStep_seqs st
    exact ⟨0, by simpa [step] using h1, by simpa [step, seqRange_zero] using h2⟩
  | socketOpened =>
    by_cases hc : st.sock = SockMode.connecting
    · simp only [step, if_pos hc]
      rcases hsend : send { st with sock := .opened, isConnecting := false }
          { type := some 1, token := some cfg.token, appId := some cfg.appId } with
        ⟨st1, e | wm⟩
      · have h1 := send_err hsend
        exact ⟨0, by simp [hsend, h1], by simp [hsend, sentSeqs, seqRange_zero]⟩
      · obtain ⟨h1, h2, -⟩ := send_ok hsend
        exact ⟨1, by simp [hsend, h1], by simp [hsend, h1, h2, sentSeqs, seqRange_one]⟩
    · exact ⟨0, by simp [step, hc], by simp [step, hc, sentSeqs, seqRange_zero]⟩
  | socketErrored =>
    by_cases hc : st.sock = SockMode.connecting
    · refine ⟨0, ?_, ?_⟩ <;>
        simp [step, hc, scheduleReconnect_seq, sentSeqs, seqRange_zero, apply_ite]
    · by_cases ha : st.attached = true <;>
        exact ⟨0, by simp [step, hc, ha], by simp [step, hc, ha, sentSeqs, seqRange_zero]⟩
  | socketClosed => exact absurd rfl hne
  | frame s =>
    by_cases ha : st.attached = true
    · simp only [step, if_pos ha]
      rcases hdec : decodeMsg s with _ | m
      · exact ⟨0, by simp [hdec], by simp [hdec, sentSeqs, seqRange_zero]⟩
      · obtain ⟨n, h1, h2⟩ := handleMessage_seqs cfg st m
        rcases hh : handleMessage cfg st m with ⟨st1, outs, err⟩
        rw [hh] at h1 h2
        simp only [hdec, hh]
        rcases err with _ | e2
        · exact ⟨n, by simpa using h1, by simpa using h2⟩
        · refine ⟨n, by simpa using h1, ?_⟩
          rw [sentSeqs_append]
          simpa [sentSeqs] using h2
    · exact ⟨0, by simp [step, ha], by simp [step, ha, sentSeqs, seqRange_zero]⟩
  | fire i =>
    simp only [step]
    rcases hfind : st.timers.find? (fun t => t.id == i) with _ | t
    · exact ⟨0, by simp [hfind], by simp [hfind, sentSeqs, seqRange_zero]⟩
    · by_cases hdue : st.now < t.due
      · exact ⟨0, by simp [hfind, hdue], by simp [hfind, hdue, sentSeqs, seqRange_zero]⟩
      · by_cases hhb : t.isHeartbeat = true
        · simp only [hfind, if_neg hdue, hhb, if_pos rfl]
          rcases hsend : send { st with timers := st.timers.filter (fun u => u.id != i) }
              { type := some 4 } with ⟨st1, e | wm⟩
          · have h1 := send_err hsend
            exact ⟨0, by simp [hsend, h1], by simp [hsend, sentSeqs, seqRange_zero]⟩
          · obtain ⟨h1, h2, -⟩ := send_ok hsend
            exact ⟨1, by simp [hsend, h1], by simp [hsend, h1, h2, sentSeqs, seqRange_one]⟩
        · obtain ⟨h1, h2⟩ := connectStep_seqs
            { st with timers := st.timers.filter (fun u => u.id != i), rcHeld := none }
          refine ⟨0, ?_, ?_⟩ <;> simp [hfind, hdue, hhb, h1, h2, seqRange_zero]
  | advance d => exact ⟨0, by simp [step], by simp [step, sentSeqs, seqRange_zero]⟩
  | disconnectCall =>
    refine ⟨0, ?_, ?_⟩
    · simp only [step]
      split <;> split <;> simp [clearHeartbeat_seq]
    · simp [step, sentSeqs, seqRange_zero]



/-- A socket close resets the counter to its initial value and sends
nothing. -/
theorem step_closed_seq (cfg : ClientConfig) (st : ClientState) :
    ((step cfg st Event.socketClosed).1.seq = 0 ∨
      (st.attached = false ∧ (step cfg st Event.socketClosed).1.seq = st.seq)) ∧
    sentSeqs (step cfg st Event.socketClosed).2 = [] := by
  by_cases ha : st.attached = true
  · constructor
    · left
      simp only [step, if_pos ha]
      by_cases hr : ({ cleanup st with attached := false } : ClientState).shouldReconnect = true <;>
        simp [hr, scheduleReconnect_seq, cleanup, clearHeartbeat_seq, apply_ite]
    · simp [step, ha, sentSeqs, apply_ite]
  · constructor
    · right
      exact ⟨by simpa using ha, by simp [step, ha]⟩
    · simp [step, ha, sentSeqs]

/-- Over any event sequence without socket closes, the envelopes sent are
numbered consecutively starting right above the initial counter value. -/
theorem run_seqs (cfg : ClientConfig) (evs : List Event) :
    ∀ st : ClientState, (∀ e ∈ evs, e ≠ Event.socketClosed) →
      ∃ n, (run cfg st evs).1.seq = st.seq + n ∧
        sentSeqs (run cfg st evs).2 = seqRange st.seq n := by
  induction evs with
  | nil => exact fun st _ => ⟨0, rfl, rfl⟩
  | cons e es ih =>
    intro st hne
    obtain ⟨n1, h1, h2⟩ := step_seqs cfg st e (hne e (by simp))
    obtain ⟨n2, h3, h4⟩ := ih (step cfg st e).1 (fun x hx => hne x (by simp [hx]))
    refine ⟨n1 + n2, ?_, ?_⟩
    · show (run cfg (step cfg st e).1 es).1.seq = st.seq + (n1 + n2)
      rw [h3, h1]
      omega
    · show sentSeqs ((step cfg st e).2 ++ (run cfg (step cfg st e).1 es).2) = _
      rw [sentSeqs_append, h2, h4, h1, seqRange_append]

/-- C4: within one connection lifetime each successful `send` carries a
sequence number exactly one above the previous counter value; across any
run without a socket close the sent numbers are consecutive from the
starting counter; a socket close (the handler that also runs on
`disconnect`) resets the counter to its initial value; and a run after a
close therefore numbers its sends `1, 2, ...` again. -/
theorem sequenceNumbersIncreaseAndRestart :
    (∀ (st st' : ClientState) (d wm : WSMessage), send st d = (st', .ok wm) →
      wm.seq = some ((st.seq + 1 : Nat) : Int) ∧ st'.seq = st.seq + 1) ∧
    (∀ (cfg : ClientConfig) (evs : List Event) (st : ClientState),
      (∀ e ∈ evs, e ≠ Event.socketClosed) →
      ∃ n, sentSeqs (run cfg st evs).2 = seqRange st.seq n) ∧
    (∀ (cfg : ClientConfig) (st : ClientState), st.attached = true →
      (step cfg st Event.socketClosed).1.seq = 0) ∧
    (∀ (cfg : ClientConfig) (evs : List Event) (st : ClientState), st.attached = true →
      (∀ e ∈ evs, e ≠ Event.socketClosed) →
      ∃ n, sentSeqs (run cfg (step cfg st Event.socketClosed).1 evs).2 = seqRange 0 n) := by
  refine ⟨?_, ?_, ?_, ?_⟩
  · intro st st' d wm h
    obtain ⟨h1, h2, -⟩ := send_ok h
    exact ⟨by simp [h2], by simp [h1]⟩
  · intro cfg evs st h
    obtain ⟨n, -, h2⟩ := run_seqs cfg evs st h
    exact ⟨n, h2⟩
  · intro cfg st ha
    rcases (step_closed_seq cfg st).1 with h | ⟨hf, -⟩
    · exact h
    · exact absurd ha (by simp [hf])
  · intro cfg evs st ha hne
    obtain ⟨n, -, h2⟩ := run_seqs cfg evs (step cfg st Event.socketClosed).1 hne
    have hz : (step cfg st Event.socketClosed).1.seq = 0 := by
      rcases (step_closed_seq cfg st).1 with h | ⟨hf, -⟩
      · exact h
      · exact absurd ha (by simp [hf])
    rw [hz] at h2
    exact ⟨n, h2⟩

theorem sequenceNumbersIncreaseAndRestartWitness :
    (∃ st' wm,
      send stOpen { type := some 1 } = (st', Except.ok wm) ∧
      wm.seq = some 1 ∧ st'.seq = 1) ∧
    (∃ n, sentSeqs (run cfgEx initState [Event.connectCall, Event.socketOpened]).2 =
      seqRange 0 n) := by
  constructor
  · refine ⟨_, _, rfl, ?_⟩
    exact sequenceNumbersIncreaseAndRestart.1 stOpen _ { type := some 1 } _ rfl
  · exact sequenceNumbersIncreaseAndRestart.2.1 cfgEx
      [Event.connectCall, Event.socketOpened] initState (by intro e he; fin_cases he <;> simp)

theorem Inv_frame {st st' : ClientState} (ht : st'.timers = st.timers)
    (hn : st'.nextId = st.nextId) (hh : st'.hbHeld = st.hbHeld)
    (hr : st'.rcHeld = st.rcHeld) (h : Inv st) : Inv st' := by
  obtain ⟨h1, h2, h3, h4⟩ := h
  exact ⟨fun t htm => hn ▸ h1 t (ht ▸ htm), ht ▸ h2,
    fun t htm hb => hh ▸ h3 t (ht ▸ htm) hb,
    fun t htm hb => hr ▸ h4 t (ht ▸ htm) hb⟩

theorem Inv_filterOut {st : ClientState} (i : Nat) (h : Inv st) :
    (∀ t ∈ st.timers.filter (fun u => u.id != i), t.id < st.nextId) ∧
    ((st.timers.filter (fun u => u.id != i)).map (fun t => t.id)).Nodup ∧
    (∀ t ∈ st.timers.filter (fun u => u.id != i), t.isHeartbeat = true →
      st.hbHeld = some t.id) ∧
    (∀ t ∈ st.timers.filter (fun u => u.id != i), t.isHeartbeat = false →
      st.rcHeld = some t.id) := by
  obtain ⟨h1, h2, h3, h4⟩ := h
  have hmem : ∀ t ∈ st.timers.filter (fun u => u.id != i), t ∈ st.timers :=
    fun t ht => (List.mem_filter.mp ht).1
  refine ⟨fun t ht => h1 t (hmem t ht), ?_,
    fun t ht hb => h3 t (hmem t ht) hb, fun t ht hb => h4 t (hmem t ht) hb⟩
  exact h2.sublist ((List.filter_sublist _).map _)

theorem Inv_clearHeartbeat {st : ClientState} (h : Inv st) :
    Inv (clearHeartbeat st) ∧
    (∀ t ∈ (clearHeartbeat st).timers, t.isHeartbeat = false) ∧
    (clearHeartbeat st).nextId = st.nextId ∧ (clearHeartbeat st).now = st.now ∧
    (clearHeartbeat st).rcHeld = st.rcHeld := by
  unfold clearHeartbeat
  rcases hh : st.hbHeld with _ | i
  · refine ⟨h, ?_, rfl, rfl, rfl⟩
    intro t ht
    by_contra hb
    have := h.2.2.1 t ht (by simpa using hb)
    simp [hh] at this
  · obtain ⟨h1, h2, h3, h4⟩ := Inv_filterOut i h
    refine ⟨⟨h1, h2, ?_, h4⟩, ?_, rfl, rfl, rfl⟩
    · intro t ht hb
      have := h.2.2.1 t (List.mem_filter.mp ht).1 hb
      rw [hh] at this
      have hne := (List.mem_filter.mp ht).2
      simp at hne
      simp at this
      exact (hne this.symm).elim
    · intro t ht
      by_contra hb
      have := h.2.2.1 t (List.mem_filter.mp ht).1 (by simpa using hb)
      rw [hh] at this
      have hne := (List.mem_filter.mp ht).2
      simp at hne
      simp at this
      exact hne this.symm

theorem Inv_startHeartbeat (iv : Nat) {st : ClientState} (h : Inv st) :
    Inv (startHeartbeat iv st) := by
  obtain ⟨⟨h1, h2, h3, h4⟩, hnohb, hni, hnow, hrc⟩ := Inv_clearHeartbeat h
  unfold startHeartbeat
  refine ⟨?_, ?_, ?_, ?_⟩
  · intro t ht
    simp only [List.mem_append, List.mem_singleton] at ht
    rcases ht with ht | ht
    · exact Nat.lt_succ_of_lt (h1 t ht)
    · simp [ht]
  · rw [List.map_append]
    simp only [List.map_cons, List.map_nil]
    rw [List.nodup_append]
    refine ⟨h2, by simp, ?_⟩
    intro x hx
    simp only [List.mem_map] at hx
    obtain ⟨t, ht, hxe⟩ := hx
    have := h1 t ht
    simp only [List.mem_singleton]
    omega
  · intro t ht hb
    simp only [List.mem_append, List.mem_singleton] at ht
    rcases ht with ht | ht
    · exact absurd hb (by simp [hnohb t ht])
    · simp [ht]
  · intro t ht hb
    simp only [List.mem_append, List.mem_singleton] at ht
    rcases ht with ht | ht
    · exact hrc ▸ h4 t ht hb
    · exact absurd hb (by simp [ht])

theorem Inv_scheduleReconnect (cfg : ClientConfig) {st : ClientState} (h : Inv st) :
    Inv (scheduleReconnect cfg st) := by
  unfold scheduleReconnect
  rcases hr : st.rcHeld with _ | i
  · obtain ⟨h1, h2, h3, h4⟩ := h
    refine ⟨?_, ?_, ?_, ?_⟩
    · intro t ht
      simp only [List.mem_append, List.mem_singleton] at ht
      rcases ht with ht | ht
      · exact Nat.lt_succ_of_lt (h1 t ht)
      · simp [ht]
    · rw [List.map_append]
      simp only [List.map_cons, List.map_nil]
      rw [List.nodup_append]
      refine ⟨h2, by simp, ?_⟩
      intro x hx
      simp only [List.mem_map] at hx
      obtain ⟨t, ht, hxe⟩ := hx
      have := h1 t ht
      simp only [List.mem_singleton]
      omega
    · intro t ht hb
      simp only [List.mem_append, List.mem_singleton] at ht
      rcases ht with ht | ht
      · exact h3 t ht hb
      · exact absurd hb (by simp [ht])
    · intro t ht hb
      simp only [List.mem_append, List.mem_singleton] at ht
      rcases ht with ht | ht
      · exact absurd (h4 t ht hb) (by simp [hr])
      · simp [ht]
  · exact h

/-- At most one live heartbeat timer in any state satisfying the
invariant. -/
theorem hbTimers_le_one {st : ClientState} (h : Inv st) :
    (st.timers.filter (fun t => t.isHeartbeat)).length ≤ 1 := by
  obtain ⟨-, hnd, hhb, -⟩ := h
  rcases hl : st.timers.filter (fun t => t.isHeartbeat) with _ | ⟨t1, _ | ⟨t2, rest⟩⟩
  · simp [hl]
  · simp [hl]
  · exfalso
    have hnd2 : ((st.timers.filter (fun t => t.isHeartbeat)).map (fun t => t.id)).Nodup :=
      hnd.sublist ((List.filter_sublist _).map _)
    rw [hl] at hnd2
    have h1 : t1 ∈ st.timers ∧ t1.isHeartbeat = true := by
      have : t1 ∈ st.timers.filter (fun t => t.isHeartbeat) := by simp [hl]
      simpa using List.mem_filter.mp this
    have h2 : t2 ∈ st.timers ∧ t2.isHeartbeat = true := by
      have : t2 ∈ st.timers.filter (fun t => t.isHeartbeat) := by simp [hl]
      simpa using List.mem_filter.mp this
    have he1 := hhb t1 h1.1 h1.2
    have he2 := hhb t2 h2.1 h2.2
    have : t1.id = t2.id := by
      rw [he1] at he2
      exact (Option.some.injEq .. ▸ he2)
    simp [this] at hnd2



theorem Inv_sendState {st st1 : ClientState} {d : WSMessage} {r : Except String WSMessage}
    (hsend : send st d = (st1, r)) (h : Inv st) : Inv st1 := by
  rcases r with e | wm
  · rw [send_err hsend]
    exact h
  · obtain ⟨h1, -, -⟩ := send_ok hsend
    rw [h1]
    exact Inv_frame rfl rfl rfl rfl h

theorem Inv_handleMessage (cfg : ClientConfig) (st : ClientState) (m : WSMessage)
    (h : Inv st) : Inv (handleMessage cfg st m).1 := by
  unfold handleMessage
  split
  · rcases hsend : send st { type := some 130, ack := m.seq } with ⟨st1, res⟩
    have h1 := Inv_sendState hsend h
    rcases res with e | wm
    · simpa [hsend] using h1
    · by_cases hp : isPush m.data = true <;> simpa [hsend, hp] using h1
  · rcases hsend : send st { type := some 132 } with ⟨st1, res⟩
    have h1 := Inv_sendState hsend h
    rcases res with e | wm <;> simpa [hsend] using h1
  · split
    · simpa using h
    · rename_i K _
      rcases hsend :
          send st { type := some 10, topic := some (aesEcbEncrypt K cfg.userId),
                    encrypt := some true } with
        ⟨st1, res⟩
      have h1 := Inv_sendState hsend h
      rcases res with e | wm <;> simpa [hsend] using h1
  · simpa using Inv_startHeartbeat 60000 h
  · rcases hsend : send st { type := some 12, data := some (infoJson cfg) } with ⟨st1, res⟩
    have h1 := Inv_sendState hsend h
    rcases res with e | wm <;> simpa [hsend] using h1
  · simpa using Inv_startHeartbeat 30000 h
  · simpa using h

/-- After removing a fired reconnect timer, no live reconnect timer
remains, so nulling the `reconnectTimer` field keeps the invariant. -/
theorem Inv_fireReconnect {st : ClientState} {t : Timer}
    (hfind : st.timers.find? (fun u => u.id == t.id) = some t)
    (hrc : t.isHeartbeat = false) (h : Inv st) :
    Inv { st with timers := st.timers.filter (fun u => u.id != t.id), rcHeld := none } := by
  obtain ⟨h1, h2, h3, h4⟩ := Inv_filterOut t.id h
  have htm : t ∈ st.timers := List.mem_of_find?_eq_some hfind
  have hheld : st.rcHeld = some t.id := h.2.2.2 t htm hrc
  refine ⟨h1, h2, h3, ?_⟩
  intro u hu hb
  have := h.2.2.2 u (List.mem_filter.mp hu).1 hb
  rw [hheld] at this
  have hne := (List.mem_filter.mp hu).2
  simp at hne this
  exact (hne this.symm).elim

theorem Inv_cleanup {st : ClientState} (h : Inv st) : Inv (cleanup st) := by
  unfold cleanup
  have hfr : Inv { st with seq := 0 } := Inv_frame rfl rfl rfl rfl h
  obtain ⟨hc, -, -, -, -⟩ := Inv_clearHeartbeat hfr
  exact Inv_frame rfl rfl rfl rfl hc

/-- Every transition preserves the timer-store invariant. -/
theorem Inv_step (cfg : ClientConfig) (st : ClientState) (e : Event) (h : Inv st) :
    Inv (step cfg st e).1 := by
  cases e with
  | connectCall =>
    show Inv (connectStep st).1
    unfold connectStep
    split
    · exact h
    · exact Inv_frame rfl rfl rfl rfl h
  | socketOpened =>
    by_cases hc : st.sock = SockMode.connecting
    · simp only [step, if_pos hc]
      have hfr : Inv { st with sock := SockMode.opened, isConnecting := false } :=
        Inv_frame rfl rfl rfl rfl h
      rcases hsend : send { st with sock := SockMode.opened, isConnecting := false }
          { type := some 1, token := some cfg.token, appId := some cfg.appId } with
        ⟨st1, res⟩
      have h1 := Inv_sendState hsend hfr
      rcases res with e2 | wm <;> simpa [hsend] using h1
    · simpa [step, hc] using h
  | socketErrored =>
    by_cases hc : st.sock = SockMode.connecting
    · simp only [step, if_pos hc]
      have hfr : Inv { st with isConnecting := false, sock := SockMode.absent } :=
        Inv_frame rfl rfl rfl rfl h
      split
      · exact Inv_scheduleReconnect cfg hfr
      · exact hfr
    · by_cases ha : st.attached = true <;> simpa [step, hc, ha] using h
  | socketClosed =>
    by_cases ha : st.attached = true
    · simp only [step, if_pos ha]
      have h1 : Inv { cleanup st with attached := false } :=
        Inv_frame rfl rfl rfl rfl (Inv_cleanup h)
      split
      · exact Inv_scheduleReconnect cfg h1
      · exact h1
    · simpa [step, ha] using h
  | frame s =>
    by_cases ha : st.attached = true
    · simp only [step, if_pos ha]
      rcases hdec : decodeMsg s with _ | m
      · simpa using h
      · have h1 := Inv_handleMessage cfg st m h
        rcases hh : handleMessage cfg st m with ⟨st1, outs, err⟩
        rw [hh] at h1
        rcases err with _ | e2 <;> simpa [hh] using h1
    · simpa [step, ha] using h
  | fire i =>
    simp only [step]
    rcases hfind : st.timers.find? (fun t => t.id == i) with _ | t
    · simpa [hfind] using h
    · have htid : t.id = i := by
        have := List.find?_some hfind
        simpa using this
      by_cases hdue : st.now < t.due
      · simpa [hfind, hdue] using h
      · by_cases hhb : t.isHeartbeat = true
        · simp only [hfind, if_neg hdue, hhb, if_pos rfl]
          have hfr : Inv { st with timers := st.timers.filter (fun u => u.id != i) } := by
            obtain ⟨h1, h2, h3, h4⟩ := Inv_filterOut i h
            exact ⟨h1, h2, h3, h4⟩
          rcases hsend : send { st with timers := st.timers.filter (fun u => u.id != i) }
              { type := some 4 } with ⟨st1, res⟩
          have h1 := Inv_sendState hsend hfr
          rcases res with e2 | wm <;> simpa [hsend] using h1
        · have hhb2 : t.isHeartbeat = false := by simpa using hhb
          simp only [hfind, if_neg hdue, hhb2, Bool.false_eq_true, if_false]
          have hfr : Inv ({st with timers := st.timers.filter (fun u => u.id != i), rcHeld := none} : ClientState) := by
            have := Inv_fireReconnect (t := t) (htid ▸ hfind) hhb2 h
            simpa [htid] using this
          show Inv (connectStep _).1
          unfold connectStep
          split
          · exact hfr
          · exact Inv_frame rfl rfl rfl rfl hfr
  | advance d => exact Inv_frame rfl rfl rfl rfl h
  | disconnectCall =>
    simp only [step]
    have hstep1 : Inv { st with shouldReconnect := false } := Inv_frame rfl rfl rfl rfl h
    rcases hrc : st.rcHeld with _ | i
    · have hbase : Inv ({st with shouldReconnect := false, rcHeld := none} : ClientState) := by
        obtain ⟨h1, h2, h3, h4⟩ := h
        refine ⟨h1, h2, h3, ?_⟩
        intro u hu hb
        have := h4 u hu hb
        rw [hrc] at this
        simp at this
      obtain ⟨hc, -, -, -, -⟩ := Inv_clearHeartbeat hbase
      simp only [hrc]
      split
      · exact Inv_frame rfl rfl rfl rfl hc
      · exact hc
    · have hfr : Inv ({st with shouldReconnect := false, rcHeld := none, timers := st.timers.filter (fun u => u.id != i)} : ClientState) := by
        obtain ⟨h1, h2, h3, h4⟩ := Inv_filterOut i h
        refine ⟨h1, h2, h3, ?_⟩
        intro u hu hb
        have := h.2.2.2 u (List.mem_filter.mp hu).1 hb
        rw [hrc] at this
        have hne := (List.mem_filter.mp hu).2
        simp at hne this
        exact (hne this.symm).elim
      obtain ⟨hc, -, -, -, -⟩ := Inv_clearHeartbeat hfr
      simp only [hrc]
      split
      · exact Inv_frame rfl rfl rfl rfl hc
      · exact hc



theorem Inv_initState : Inv initState := by
  refine ⟨?_, ?_, ?_, ?_⟩ <;> simp [initState]

/-- Arming replaces every live heartbeat timer by exactly one fresh one. -/
theorem startHeartbeat_arms (iv : Nat) (st : ClientState) (h : Inv st) :
    (startHeartbeat iv st).timers.filter (fun t => t.isHeartbeat) =
      [⟨st.nextId, true, iv, st.now + iv⟩] ∧
    (startHeartbeat iv st).hbHeld = some st.nextId := by
  obtain ⟨-, hnohb, hni, hnow, -⟩ := Inv_clearHeartbeat h
  unfold startHeartbeat
  constructor
  · rw [List.filter_append]
    rw [List.filter_eq_nil_iff.mpr (by intro t ht; simp [hnohb t ht])]
    simp [hni, hnow]
  · simp [hni]

/-- C6: inbound 132 arms the heartbeat at 60000, inbound 140 arms it at
30000, arming cancels every previously pending heartbeat timer (leaving
exactly the fresh one), the timer-store invariant is preserved by every
transition from the initial state on, and under it at most one heartbeat
timer is live at any instant. -/
theorem heartbeatArmingIsExclusive :
    (∀ (cfg : ClientConfig) (st : ClientState) (m : WSMessage), m.type = some 132 →
      handleMessage cfg st m = (startHeartbeat 60000 st, [], none)) ∧
    (∀ (cfg : ClientConfig) (st : ClientState) (m : WSMessage), m.type = some 140 →
      handleMessage cfg st m = (startHeartbeat 30000 st, [], none)) ∧
    (∀ (iv : Nat) (st : ClientState), Inv st →
      (startHeartbeat iv st).timers.filter (fun t => t.isHeartbeat) =
        [⟨st.nextId, true, iv, st.now + iv⟩] ∧
      (startHeartbeat iv st).hbHeld = some st.nextId) ∧
    (∀ (cfg : ClientConfig) (st : ClientState) (e : Event), Inv st → Inv (step cfg st e).1) ∧
    (∀ st : ClientState, Inv st → (st.timers.filter (fun t => t.isHeartbeat)).length ≤ 1) ∧
    Inv initState := by
  refine ⟨?_, ?_, startHeartbeat_arms, Inv_step, fun st h => hbTimers_le_one h, Inv_initState⟩
  · intro cfg st m ht
    simp [handleMessage, ht]
  · intro cfg st m ht
    simp [handleMessage, ht]

theorem heartbeatArmingIsExclusiveWitness :
    (handleMessage cfgEx stOpen { type := some 132 } =
      (startHeartbeat 60000 stOpen, [], none)) ∧
    ((startHeartbeat 60000 stOpen).timers.filter (fun t => t.isHeartbeat) =
      [⟨0, true, 60000, 60000⟩] ∧
     (startHeartbeat 60000 stOpen).hbHeld = some 0) ∧
    Inv (step cfgEx initState Event.connectCall).1 :=
  ⟨heartbeatArmingIsExclusive.1 cfgEx stOpen { type := some 132 } rfl,
   heartbeatArmingIsExclusive.2.2.1 60000 stOpen
     ⟨by simp [stOpen], by simp [stOpen], by simp [stOpen], by simp [stOpen]⟩,
   heartbeatArmingIsExclusive.2.2.2.1 cfgEx initState Event.connectCall
     heartbeatArmingIsExclusive.2.2.2.2.2⟩

theorem NoAuto_frame {st st' : ClientState} (ht : st'.timers = st.timers)
    (hs : st'.shouldReconnect = st.shouldReconnect) (h : NoAuto st) : NoAuto st' :=
  ⟨hs ▸ h.1, fun t htm => h.2 t (ht ▸ htm)⟩

theorem NoAuto_startHeartbeat (iv : Nat) {st : ClientState} (h : NoAuto st) :
    NoAuto (startHeartbeat iv st) := by
  obtain ⟨h1, h2⟩ := h
  unfold startHeartbeat clearHeartbeat
  rcases st.hbHeld with _ | i
  · refine ⟨h1, ?_⟩
    intro t ht
    simp only [List.mem_append, List.mem_singleton] at ht
    rcases ht with ht | ht
    · exact h2 t ht
    · simp [ht]
  · refine ⟨h1, ?_⟩
    intro t ht
    simp only [List.mem_append, List.mem_singleton] at ht
    rcases ht with ht | ht
    · exact h2 t (List.mem_filter.mp ht).1
    · simp [ht]

theorem NoAuto_clearHeartbeat {st : ClientState} (h : NoAuto st) :
    NoAuto (clearHeartbeat st) := by
  unfold clearHeartbeat
  rcases st.hbHeld with _ | i
  · exact h
  · exact ⟨h.1, fun t ht => h.2 t (List.mem_filter.mp ht).1⟩

theorem NoAuto_handleMessage (cfg : ClientConfig) {st : ClientState} (m : WSMessage)
    (h : NoAuto st) : NoAuto (handleMessage cfg st m).1 := by
  unfold handleMessage
  split
  · rcases hsend : send st { type := some 130, ack := m.seq } with ⟨st1, res⟩
    have h1 : NoAuto st1 := by
      rcases res with e | wm
      · rw [send_err hsend]; exact h
      · rw [(send_ok hsend).1]; exact NoAuto_frame rfl rfl h
    rcases res with e | wm
    · simpa [hsend] using h1
    · by_cases hp : isPush m.data = true <;> simpa [hsend, hp] using h1
  · rcases hsend : send st { type := some 132 } with ⟨st1, res⟩
    have h1 : NoAuto st1 := by
      rcases res with e | wm
      · rw [send_err hsend]; exact h
      · rw [(send_ok hsend).1]; exact NoAuto_frame rfl rfl h
    rcases res with e | wm <;> simpa [hsend] using h1
  · split
    · simpa using h
    · rename_i K _
      rcases hsend :
          send st { type := some 10, topic := some (aesEcbEncrypt K cfg.userId),
                    encrypt := some true } with
        ⟨st1, res⟩
      have h1 : NoAuto st1 := by
        rcases res with e | wm
        · rw [send_err hsend]; exact h
        · rw [(send_ok hsend).1]; exact NoAuto_frame rfl rfl h
      rcases res with e | wm <;> simpa [hsend] using h1
  · simpa using NoAuto_startHeartbeat 60000 h
  · rcases hsend : send st { type := some 12, data := some (infoJson cfg) } with ⟨st1, res⟩
    have h1 : NoAuto st1 := by
      rcases res with e | wm
      · rw [send_err hsend]; exact h
      · rw [(send_ok hsend).1]; exact NoAuto_frame rfl rfl h
    rcases res with e | wm <;> simpa [hsend] using h1
  · simpa using NoAuto_startHeartbeat 30000 h
  · simpa using h

/-- Protocol reactions only ever send envelopes or forward the raw push. -/
theorem handleMessage_outs (cfg : ClientConfig) (st : ClientState) (m : WSMessage) :
    ∀ o ∈ (handleMessage cfg st m).2.1,
      (∃ wm, o = Output.sent wm) ∨ o = Output.rawMessage m := by
  intro o
  unfold handleMessage
  split
  · rcases hsend : send st { type := some 130, ack := m.seq } with ⟨st1, res⟩
    rcases res with e | wm
    · simp [hsend]
    · by_cases hp : isPush m.data = true
      · simp only [hsend, if_pos hp]
        intro ho
        simp only [List.mem_cons, List.not_mem_nil, or_false] at ho
        rcases ho with rfl | rfl
        · exact Or.inl ⟨wm, rfl⟩
        · exact Or.inr rfl
      · simp only [hsend, if_neg hp]
        intro ho
        simp only [List.mem_singleton] at ho
        subst ho
        exact Or.inl ⟨wm, rfl⟩
  · rcases hsend : send st { type := some 132 } with ⟨st1, res⟩
    rcases res with e | wm
    · simp [hsend]
    · simp only [hsend]
      intro ho
      simp only [List.mem_singleton] at ho
      subst ho
      exact Or.inl ⟨wm, rfl⟩
  · split
    · simp
    · rename_i K _
      rcases hsend :
          send st { type := some 10, topic := some (aesEcbEncrypt K cfg.userId),
                    encrypt := some true } with
        ⟨st1, res⟩
      rcases res with e | wm
      · simp [hsend]
      · simp only [hsend]
        intro ho
        simp only [List.mem_singleton] at ho
        subst ho
        exact Or.inl ⟨wm, rfl⟩
  · simp
  · rcases hsend : send st { type := some 12, data := some (infoJson cfg) } with ⟨st1, res⟩
    rcases res with e | wm
    · simp [hsend]
    · simp only [hsend]
      intro ho
      simp only [List.mem_singleton] at ho
      subst ho
      exact Or.inl ⟨wm, rfl⟩
  · simp
  · simp

/-- A disabled client never re-enables reconnection, never acquires a
reconnect timer, and performs no automatic connect attempt. -/
theorem NoAuto_step (cfg : ClientConfig) (st : ClientState) (e : Event) (h : NoAuto st) :
    NoAuto (step cfg st e).1 ∧
    (e ≠ Event.connectCall → Output.connectAttempt ∉ (step cfg st e).2) := by
  cases e with
  | connectCall =>
    refine ⟨?_, fun hne => absurd rfl hne⟩
    show NoAuto (connectStep st).1
    unfold connectStep
    split
    · exact h
    · exact NoAuto_frame rfl rfl h
  | socketOpened =>
    by_cases hc : st.sock = SockMode.connecting
    · simp only [step, if_pos hc]
      rcases hsend : send { st with sock := SockMode.opened, isConnecting := false }
          { type := some 1, token := some cfg.token, appId := some cfg.appId } with
        ⟨st1, res⟩
      have h1 : NoAuto st1 := by
        rcases res with e2 | wm
        · rw [send_err hsend]; exact NoAuto_frame rfl rfl h
        · rw [(send_ok hsend).1]; exact NoAuto_frame rfl rfl h
      rcases res with e2 | wm <;> exact ⟨by simpa [hsend] using h1, by simp [hsend]⟩
    · exact ⟨by simpa [step, hc] using h, by simp [step, hc]⟩
  | socketErrored =>
    by_cases hc : st.sock = SockMode.connecting
    · simp only [step, if_pos hc]
      rw [if_neg (by simp [h.1])]
      exact ⟨NoAuto_frame rfl rfl h, by simp⟩
    · by_cases ha : st.attached = true <;>
        exact ⟨by simpa [step, hc, ha] using h, by simp [step, hc, ha]⟩
  | socketClosed =>
    by_cases ha : st.attached = true
    · simp only [step, if_pos ha]
      have hsr : (cleanup st).shouldReconnect = false := by
        unfold cleanup clearHeartbeat
        rcases st.hbHeld with _ | i <;> simp [h.1]
      rw [if_neg (by simp [hsr])]
      have h1 : NoAuto (cleanup st) := by
        unfold cleanup
        exact NoAuto_frame rfl rfl (NoAuto_clearHeartbeat (NoAuto_frame rfl rfl h))
      exact ⟨NoAuto_frame rfl rfl h1, by simp⟩
    · exact ⟨by simpa [step, ha] using h, by simp [step, ha]⟩
  | frame s =>
    by_cases ha : st.attached = true
    · simp only [step, if_pos ha]
      rcases hdec : decodeMsg s with _ | m
      · exact ⟨by simpa [hdec] using h, by simp [hdec]⟩
      · simp only [hdec]
        have h1 := NoAuto_handleMessage cfg m h
        have hout := handleMessage_outs cfg st m
        rcases hh : handleMessage cfg st m with ⟨st1, outs, err⟩
        rw [hh] at h1 hout
        have hnotin : Output.connectAttempt ∉ outs := by
          intro hmem
          rcases hout _ hmem with ⟨wm, hw⟩ | hw <;> simp at hw
        rcases err with _ | e2
        · exact ⟨by simpa using h1, fun _ => by simpa using hnotin⟩
        · refine ⟨by simpa using h1, fun _ hmem => ?_⟩
          simp only [List.mem_append, List.mem_singleton] at hmem
          rcases hmem with hmem | hmem
          · exact hnotin hmem
          · exact absurd hmem (by simp)
    · exact ⟨by simpa [step, ha] using h, by simp [step, ha]⟩
  | fire i =>
    simp only [step]
    rcases hfind : st.timers.find? (fun t => t.id == i) with _ | t
    · exact ⟨by simpa [hfind] using h, by simp [hfind]⟩
    · have hhb : t.isHeartbeat = true := h.2 t (List.mem_of_find?_eq_some hfind)
      by_cases hdue : st.now < t.due
      · exact ⟨by simpa [hfind, hdue] using h, by simp [hfind, hdue]⟩
      · simp only [hfind, if_neg hdue, hhb, if_pos rfl]
        rcases hsend : send { st with timers := st.timers.filter (fun u => u.id != i) }
            { type := some 4 } with ⟨st1, res⟩
        have hf : NoAuto { st with timers := st.timers.filter (fun u => u.id != i) } :=
          ⟨h.1, fun u hu => h.2 u (List.mem_filter.mp hu).1⟩
        have h1 : NoAuto st1 := by
          rcases res with e2 | wm
          · rw [send_err hsend]; exact hf
          · rw [(send_ok hsend).1]; exact NoAuto_frame rfl rfl hf
        rcases res with e2 | wm <;> exact ⟨by simpa [hsend] using h1, by simp [hsend]⟩
  | advance d => exact ⟨NoAuto_frame rfl rfl h, by simp [step]⟩
  | disconnectCall =>
    refine ⟨?_, by simp [step, apply_ite]⟩
    simp only [step]
    rcases hrc : st.rcHeld with _ | i <;> simp only [hrc]
    · have h1 := NoAuto_clearHeartbeat
        (show NoAuto ({st with shouldReconnect := false, rcHeld := none} : ClientState) from
          ⟨rfl, h.2⟩)
      split
      · exact NoAuto_frame rfl rfl h1
      · exact h1
    · have hf : NoAuto ({st with shouldReconnect := false, rcHeld := none, timers := st.timers.filter (fun u => u.id != i)} : ClientState) :=
        ⟨rfl, fun u hu => h.2 u (List.mem_filter.mp hu).1⟩
      have h1 := NoAuto_clearHeartbeat hf
      split
      · exact NoAuto_frame rfl rfl h1
      · exact h1



/-- A connect attempt out of a timer firing requires a live, due,
non-heartbeat timer with that id. -/
theorem fire_connectAttempt (cfg : ClientConfig) (st : ClientState) (i : Nat)
    (hmem : Output.connectAttempt ∈ (step cfg st (Event.fire i)).2) :
    ∃ t ∈ st.timers, t.id = i ∧ t.isHeartbeat = false ∧ t.due ≤ st.now := by
  rcases hfind : st.timers.find? (fun t => t.id == i) with _ | t
  · simp [step, hfind] at hmem
  · by_cases hdue : st.now < t.due
    · simp [step, hfind, hdue] at hmem
    · by_cases hhb : t.isHeartbeat = true
      · simp only [step, hfind, if_neg hdue, hhb, if_pos rfl] at hmem
        rcases hsend : send { st with timers := st.timers.filter (fun u => u.id != i) }
            { type := some 4 } with ⟨st1, res⟩
        rcases res with e | wm <;> simp [hsend] at hmem
      · have htid : t.id = i := by simpa using List.find?_some hfind
        exact ⟨t, List.mem_of_find?_eq_some hfind, htid, by simpa using hhb, by omega⟩

/-- `disconnect()` disables reconnection and cancels both timers; in an
invariant state no live timer survives it. -/
theorem disconnect_teardown (cfg : ClientConfig) (st : ClientState) (h : Inv st) :
    (step cfg st Event.disconnectCall).1.shouldReconnect = false ∧
    (step cfg st Event.disconnectCall).1.timers = [] ∧
    NoAuto (step cfg st Event.disconnectCall).1 := by
  have hmain : (step cfg st Event.disconnectCall).1.shouldReconnect = false ∧
      (step cfg st Event.disconnectCall).1.timers = [] := by
    simp only [step]
    rcases hrc : st.rcHeld with _ | i <;> rcases hhb : st.hbHeld with _ | j
    · have ht : st.timers = [] := by
        rw [List.eq_nil_iff_forall_not_mem]
        intro u hu
        by_cases hb : u.isHeartbeat = true
        · exact absurd (h.2.2.1 u hu hb) (by simp [hhb])
        · exact absurd (h.2.2.2 u hu (by simpa using hb)) (by simp [hrc])
      simp only [hrc, clearHeartbeat, hhb, ht]
      split <;> simp [ht]
    · have ht : st.timers.filter (fun t => t.id != j) = [] := by
        rw [List.filter_eq_nil_iff]
        intro u hu
        by_cases hb : u.isHeartbeat = true
        · have := h.2.2.1 u hu hb
          rw [hhb] at this
          simp [show u.id = j from by simpa using this.symm]
        · exact absurd (h.2.2.2 u hu (by simpa using hb)) (by simp [hrc])
      simp only [hrc, clearHeartbeat, hhb, ht]
      split <;> simp
    · have ht : st.timers.filter (fun u => u.id != i) = [] := by
        rw [List.filter_eq_nil_iff]
        intro u hu
        by_cases hb : u.isHeartbeat = true
        · exact absurd (h.2.2.1 u hu hb) (by simp [hhb])
        · have := h.2.2.2 u hu (by simpa using hb)
          rw [hrc] at this
          simp [show u.id = i from by simpa using this.symm]
      simp only [hrc, clearHeartbeat, hhb, ht]
      split <;> simp
    · have ht : (st.timers.filter (fun u => u.id != i)).filter (fun t => t.id != j) = [] := by
        rw [List.filter_eq_nil_iff]
        intro u hu
        have hu1 := (List.mem_filter.mp hu).1
        by_cases hb : u.isHeartbeat = true
        · have := h.2.2.1 u hu1 hb
          rw [hhb] at this
          simp [show u.id = j from by simpa using this.symm]
        · have := h.2.2.2 u hu1 (by simpa using hb)
          rw [hrc] at this
          have hne := (List.mem_filter.mp hu).2
          simp at hne this
          exact (hne this.symm).elim
      simp only [hrc, clearHeartbeat, hhb, ht]
      split <;> simp [ht]
  exact ⟨hmain.1, hmain.2, hmain.1, by simp [hmain.2]⟩

/-- Once disabled, a client stays disabled and never attempts an automatic
connect over any event sequence without an explicit `connect()` call. -/
theorem NoAuto_run (cfg : ClientConfig) (evs : List Event) :
    ∀ st : ClientState, NoAuto st → (∀ e ∈ evs, e ≠ Event.connectCall) →
      NoAuto (run cfg st evs).1 ∧ ∀ o ∈ (run cfg st evs).2, o ≠ Output.connectAttempt := by
  induction evs with
  | nil => exact fun st h _ => ⟨h, by simp [run]⟩
  | cons e es ih =>
    intro st h hne
    obtain ⟨h1, h2⟩ := NoAuto_step cfg st e h
    obtain ⟨h3, h4⟩ := ih (step cfg st e).1 h1 (fun x hx => hne x (by simp [hx]))
    refine ⟨h3, ?_⟩
    intro o ho
    have ho2 : o ∈ (step cfg st e).2 ++ (run cfg (step cfg st e).1 es).2 := ho
    rcases List.mem_append.mp ho2 with hm | hm
    · intro hbad
      exact (h2 (hne e (by simp)) (hbad ▸ hm))
    · exact h4 o hm

/-- C8: a second scheduling request while the reconnect timer is pending is
a no-op; scheduling arms a timer delayed by the configured retry interval
and invokes no connect; a connect attempt out of a timer firing requires a
live, due reconnect timer; and `disconnect()` disables reconnection,
cancels the pending timers and prevents every further automatic connect
attempt. -/
theorem reconnectIsDebouncedAndCancellable :
    (∀ (cfg : ClientConfig) (st : ClientState) (i : Nat), st.rcHeld = some i →
      scheduleReconnect cfg st = st) ∧
    (∀ (cfg : ClientConfig) (st : ClientState), st.rcHeld = none →
      scheduleReconnect cfg st =
        { st with
          timers := st.timers ++
            [⟨st.nextId, false, cfg.retryInterval * 1000,
              st.now + cfg.retryInterval * 1000⟩],
          rcHeld := some st.nextId, nextId := st.nextId + 1 }) ∧
    (∀ (cfg : ClientConfig) (st : ClientState) (i : Nat),
      Output.connectAttempt ∈ (step cfg st (Event.fire i)).2 →
      ∃ t ∈ st.timers, t.id = i ∧ t.isHeartbeat = false ∧ t.due ≤ st.now) ∧
    (∀ (cfg : ClientConfig) (st : ClientState), Inv st →
      (step cfg st Event.disconnectCall).1.shouldReconnect = false ∧
      (step cfg st Event.disconnectCall).1.timers = [] ∧
      NoAuto (step cfg st Event.disconnectCall).1) ∧
    (∀ (cfg : ClientConfig) (evs : List Event) (st : ClientState), NoAuto st →
      (∀ e ∈ evs, e ≠ Event.connectCall) →
      NoAuto (run cfg st evs).1 ∧
      ∀ o ∈ (run cfg st evs).2, o ≠ Output.connectAttempt) := by
  refine ⟨?_, ?_, fire_connectAttempt, disconnect_teardown,
    fun cfg evs st h hne => NoAuto_run cfg evs st h hne⟩
  · intro cfg st i hrc
    simp [scheduleReconnect, hrc]
  · intro cfg st hrc
    simp [scheduleReconnect, hrc]

theorem reconnectIsDebouncedAndCancellableWitness :
    (scheduleReconnect cfgEx { stOpen with rcHeld := some 5 } =
      { stOpen with rcHeld := some 5 }) ∧
    (scheduleReconnect cfgEx stOpen =
      { stOpen with timers := [⟨0, false, 3000, 3000⟩], rcHeld := some 0, nextId := 1 }) ∧
    ((step cfgEx stOpen Event.disconnectCall).1.shouldReconnect = false ∧
     (step cfgEx stOpen Event.disconnectCall).1.timers = [] ∧
     NoAuto (step cfgEx stOpen Event.disconnectCall).1) ∧
    (NoAuto (run cfgEx (step cfgEx stOpen Event.disconnectCall).1
        [Event.socketClosed, Event.advance 5000, Event.fire 0]).1 ∧
     ∀ o ∈ (run cfgEx (step cfgEx stOpen Event.disconnectCall).1
        [Event.socketClosed, Event.advance 5000, Event.fire 0]).2,
       o ≠ Output.connectAttempt) := by
  have hInvOpen : Inv stOpen := ⟨by simp [stOpen], by simp [stOpen], by simp [stOpen],
    by simp [stOpen]⟩
  refine ⟨?_, ?_, ?_, ?_⟩
  · exact reconnectIsDebouncedAndCancellable.1 cfgEx { stOpen with rcHeld := some 5 } 5 rfl
  · have := reconnectIsDebouncedAndCancellable.2.1 cfgEx stOpen rfl
    simpa using this
  · exact reconnectIsDebouncedAndCancellable.2.2.2.1 cfgEx stOpen hInvOpen
  · exact reconnectIsDebouncedAndCancellable.2.2.2.2 cfgEx
      [Event.socketClosed, Event.advance 5000, Event.fire 0]
      (step cfgEx stOpen Event.disconnectCall).1
      (reconnectIsDebouncedAndCancellable.2.2.2.1 cfgEx stOpen hInvOpen).2.2
      (by intro e he; fin_cases he <;> simp)

end Redote
